import Mathlib

/-!
Verification of the llm-holdem deterministic hand engine.

This file embeds, as Lean definitions, the poker hand engine of
`src/lib/runtime/match-runner.ts` (class `HandEngine`) together with the
deck construction and seeded shuffle of `src/lib/runtime/cards.ts` and the
decision validator `validateDecisionPayload` of the agent-decision module,
and proves properties of the embedded definitions.

JavaScript 32-bit integer arithmetic (`Math.imul`, `^`, `>>>`, `| 0`) is
modelled over `Nat` with explicit reductions modulo `2 ^ 32`; the unsigned
residue tracks the 32-bit pattern of the JS value exactly.  String seeds
are hashed code unit by code unit; we use `Char.toNat`, which agrees with
JS `charCodeAt` on all basic-multilingual-plane strings.
-/

namespace LlmHoldem

/-- `2 ^ 32`, the modulus of all JS 32-bit integer operations. -/
def M32 : Nat := 4294967296

/-- `Math.imul`: 32-bit integer multiplication (unsigned residue). -/
def imul (x y : Nat) : Nat := (x * y) % M32

/-- Card suit, as in `cards.ts` (`"s" | "h" | "d" | "c"`). -/
inductive Suit where
  | s | h | d | c
deriving DecidableEq, Repr, Inhabited

/-- Card rank, as in `cards.ts` (`"2" .. "9", "T", "J", "Q", "K", "A"`). -/
inductive Rank where
  | r2 | r3 | r4 | r5 | r6 | r7 | r8 | r9 | rT | rJ | rQ | rK | rA
deriving DecidableEq, Repr, Inhabited

/-- A playing card: a rank paired with a suit. -/
structure Card where
  rank : Rank
  suit : Suit
deriving DecidableEq, Repr, Inhabited

/-- The `RANKS` constant of `cards.ts`, in source order `2..A`. -/
def RANKS : List Rank :=
  [.r2, .r3, .r4, .r5, .r6, .r7, .r8, .r9, .rT, .rJ, .rQ, .rK, .rA]

/-- The `SUITS` constant of `cards.ts`, in source order `s, h, d, c`. -/
def SUITS : List Suit := [.s, .h, .d, .c]

/-- `createDeck`: the canonical 52-card deck, rank-major over `RANKS`,
suit-minor over `SUITS`. -/
def createDeck : List Card :=
  RANKS.flatMap fun r => SUITS.map fun su => ⟨r, su⟩

/-- State of the four 32-bit lanes of the `cyrb128` string hash. -/
structure Hash4 where
  h1 : Nat
  h2 : Nat
  h3 : Nat
  h4 : Nat
deriving Repr

/-- One character round of `cyrb128`; the assignments are sequential, so
`h4` already sees the updated `h1`. -/
def cyrbRound (h : Hash4) (code : Nat) : Hash4 :=
  let h1 := Nat.xor h.h2 (imul (Nat.xor h.h1 code) 597399067)
  let h2 := Nat.xor h.h3 (imul (Nat.xor h.h2 code) 2869860233)
  let h3 := Nat.xor h.h4 (imul (Nat.xor h.h3 code) 951274213)
  let h4 := Nat.xor h1 (imul (Nat.xor h.h4 code) 2716044179)
  ⟨h1, h2, h3, h4⟩

/-- `cyrb128`: hash a seed string into four 32-bit words. -/
def cyrb128 (input : String) : Hash4 :=
  let h := (input.toList.map Char.toNat).foldl cyrbRound
    ⟨1779033703, 3144134277, 1013904242, 2773480762⟩
  let h1 := imul (Nat.xor h.h3 (h.h1 / 2 ^ 18)) 597399067
  let h2 := imul (Nat.xor h.h4 (h.h2 / 2 ^ 22)) 2869860233
  let h3 := imul (Nat.xor h1 (h.h3 / 2 ^ 17)) 951274213
  let h4 := imul (Nat.xor h2 (h.h4 / 2 ^ 19)) 2716044179
  ⟨Nat.xor (Nat.xor (Nat.xor h1 h2) h3) h4, h2, h3, h4⟩

/-- Internal state of the `sfc32` generator. -/
structure Sfc where
  a : Nat
  b : Nat
  c : Nat
  d : Nat
deriving Repr

/-- One step of `sfc32`: returns the raw 32-bit output (the JS code then
divides by `2 ^ 32` to produce a float) and the successor state.  The JS
body first forces each lane to an unsigned 32-bit value (`>>>= 0`). -/
def sfc32Step (s : Sfc) : Nat × Sfc :=
  let a := s.a % M32
  let b := s.b % M32
  let c := s.c % M32
  let d := s.d % M32
  let t := (a + b) % M32
  let a1 := Nat.xor b (b / 2 ^ 9)
  let b1 := (c + c * 2 ^ 3 % M32) % M32
  let c1 := Nat.lor (c * 2 ^ 21 % M32) (c / 2 ^ 11)
  let d1 := (d + 1) % M32
  let value := (t + d1) % M32
  let c2 := (c1 + value) % M32
  (value, ⟨a1, b1, c2, d1⟩)

/-- Swap the entries at positions `i` and `j` of a list (the JS
destructuring assignment `[deck[i], deck[j]] = [deck[j], deck[i]]`). -/
def listSwap (l : List α) (i j : Nat) : List α :=
  match l[i]?, l[j]? with
  | some a, some b => (l.set i b).set j a
  | _, _ => l

/-- The Fisher–Yates loop of `shuffleDeckWithSeed`: iteration `fyAux (i, _)`
performs the swaps for indices `i, i-1, …, 1`.  The JS index `j` is
`Math.floor(rng() * (i + 1))`; since `value < 2 ^ 32` and `i + 1 ≤ 52`,
the float product is exact and equals `value * (i + 1) / 2 ^ 32` over `Nat`. -/
def fyAux : Nat → Sfc → List Card → List Card
  | 0, _, deck => deck
  | i + 1, st, deck =>
    let step := sfc32Step st
    let j := step.1 * (i + 2) / M32
    fyAux i step.2 (listSwap deck (i + 1) j)

/-- `shuffleDeckWithSeed`: seed `cyrb128` with the string, run `sfc32`
through a Fisher–Yates pass over the canonical deck. -/
def shuffleDeckWithSeed (seed : String) : List Card :=
  let deck := createDeck
  let h := cyrb128 seed
  fyAux (deck.length - 1) ⟨h.h1, h.h2, h.h3, h.h4⟩ deck

/-! ### Permutation lemmas for the shuffle -/

/-- Moving the `k`-th element of a list to the front while writing `x`
into its slot is a permutation of putting `x` at the front. -/
theorem cons_get_set_perm : ∀ (xs : List α) (k : Nat) (hk : k < xs.length) (x : α),
    List.Perm (xs.get ⟨k, hk⟩ :: xs.set k x) (x :: xs)
  | y :: ys, 0, _, x => List.Perm.swap x y ys
  | y :: ys, k + 1, hk, x => by
    have hk' : k < ys.length := Nat.lt_of_succ_lt_succ hk
    have ih := cons_get_set_perm ys k hk' x
    show List.Perm (ys.get ⟨k, hk'⟩ :: y :: ys.set k x) (x :: y :: ys)
    have s1 : List.Perm (ys.get ⟨k, hk'⟩ :: y :: ys.set k x)
        (y :: ys.get ⟨k, hk'⟩ :: ys.set k x) := List.Perm.swap _ _ _
    have s2 : List.Perm (y :: ys.get ⟨k, hk'⟩ :: ys.set k x) (y :: x :: ys) := ih.cons y
    have s3 : List.Perm (y :: x :: ys) (x :: y :: ys) := List.Perm.swap _ _ _
    exact s1.trans (s2.trans s3)

/-- Writing `l[j]` at position `i` and `l[i]` at position `j` permutes `l`. -/
theorem set_set_perm : ∀ (l : List α) (i j : Nat) (hi : i < l.length) (hj : j < l.length),
    List.Perm ((l.set i (l.get ⟨j, hj⟩)).set j (l.get ⟨i, hi⟩)) l
  | x :: xs, 0, 0, _, _ => by simp
  | x :: xs, 0, j + 1, hi, hj => by
    have hj' : j < xs.length := Nat.lt_of_succ_lt_succ hj
    have := cons_get_set_perm xs j hj' x
    simpa using this
  | x :: xs, i + 1, 0, hi, hj => by
    have hi' : i < xs.length := Nat.lt_of_succ_lt_succ hi
    have := cons_get_set_perm xs i hi' x
    simpa using this
  | x :: xs, i + 1, j + 1, hi, hj => by
    have hi' : i < xs.length := Nat.lt_of_succ_lt_succ hi
    have hj' : j < xs.length := Nat.lt_of_succ_lt_succ hj
    have ih := set_set_perm xs i j hi' hj'
    simpa using ih.cons x

/-- `listSwap` always returns a permutation of its input. -/
theorem listSwap_perm (l : List α) (i j : Nat) : List.Perm (listSwap l i j) l := by
  unfold listSwap
  cases hia : l[i]? with
  | none => cases l[j]? <;> exact List.Perm.refl l
  | some a =>
    cases hjb : l[j]? with
    | none => exact List.Perm.refl l
    | some b =>
      have hi : i < l.length := by
        by_contra hcon
        rw [List.getElem?_eq_none (Nat.le_of_not_lt hcon)] at hia
        exact Option.noConfusion hia
      have hj : j < l.length := by
        by_contra hcon
        rw [List.getElem?_eq_none (Nat.le_of_not_lt hcon)] at hjb
        exact Option.noConfusion hjb
      have ha : a = l.get ⟨i, hi⟩ := by
        have := List.getElem?_eq_getElem hi
        rw [hia] at this
        exact (Option.some.injEq _ _ ▸ this.symm) ▸ rfl
      have hb : b = l.get ⟨j, hj⟩ := by
        have := List.getElem?_eq_getElem hj
        rw [hjb] at this
        exact (Option.some.injEq _ _ ▸ this.symm) ▸ rfl
      subst ha hb
      exact set_set_perm l i j hi hj

/-- Each Fisher–Yates pass returns a permutation of its input deck. -/
theorem fyAux_perm : ∀ (n : Nat) (st : Sfc) (deck : List Card),
    List.Perm (fyAux n st deck) deck
  | 0, _, _ => List.Perm.refl _
  | n + 1, st, deck => by
    have ih := fyAux_perm n (sfc32Step st).2
      (listSwap deck (n + 1) ((sfc32Step st).1 * (n + 2) / M32))
    exact ih.trans (listSwap_perm _ _ _)

/-- The canonical deck has 52 pairwise distinct cards. -/
theorem createDeck_nodup : createDeck.Nodup := by decide

theorem createDeck_length : createDeck.length = 52 := by decide

/-- C9: for every seed string, `shuffleDeckWithSeed` returns a permutation
of the canonical rank-major deck, hence exactly 52 pairwise-distinct
cards, and it is a pure function of the seed: equal seeds give identical
card orders. -/
theorem shuffleDeckWithSeed_perm_52_nodup_pure (seed : String) :
    List.Perm (shuffleDeckWithSeed seed) createDeck ∧
      (shuffleDeckWithSeed seed).length = 52 ∧
      (shuffleDeckWithSeed seed).Nodup ∧
      ∀ seed2 : String, seed = seed2 →
        shuffleDeckWithSeed seed = shuffleDeckWithSeed seed2 := by
  have hperm : List.Perm (shuffleDeckWithSeed seed) createDeck := fyAux_perm _ _ _
  refine ⟨hperm, ?_, ?_, ?_⟩
  · rw [hperm.length_eq, createDeck_length]
  · exact hperm.symm.nodup createDeck_nodup
  · intro seed2 h
    rw [h]

/-- Witness for C9 at the concrete seed `"m:1"` (match seed `m`, hand 1). -/
theorem shuffleDeckWithSeed_perm_52_nodup_pure_witness :
    List.Perm (shuffleDeckWithSeed ("m:1")) createDeck ∧
      (shuffleDeckWithSeed ("m:1")).length = 52 ∧
      (shuffleDeckWithSeed ("m:1")).Nodup ∧
      shuffleDeckWithSeed ("m:1") = shuffleDeckWithSeed ("m:1") := by
  have h := shuffleDeckWithSeed_perm_52_nodup_pure ("m:1")
  exact ⟨h.1, h.2.1, h.2.2.1, h.2.2.2 ("m:1") rfl⟩

/-! ## The hand engine data model (`match-runner.ts`, class `HandEngine`) -/

/-- The four betting streets, in `STREETS` order. -/
inductive Street where
  | preflop | flop | turn | river
deriving DecidableEq, Repr

/-- The closed action vocabulary of `AppliedDecision.action`. -/
inductive ActionKind where
  | fold | check | call | bet | raise | all_in
deriving DecidableEq, Repr

/-- One entry of the per-hand action log (`ActionRecord`). -/
structure ActionRecord where
  seatIndex : Nat
  action : ActionKind
  amount : Nat
  handNumber : Nat
  street : Street
deriving DecidableEq, Repr

/-- `AppliedDecision`: the externally supplied decision.  Amounts reaching
the engine are non-negative integers (the resolver floors them). -/
structure AppliedDecision where
  action : ActionKind
  amount : Nat
deriving DecidableEq, Repr

/-- `SeatSnapshot`: the external per-seat view handed to the engine. -/
structure SeatSnapshot where
  seatIndex : Nat
  stack : Nat
  isEliminated : Bool
deriving DecidableEq, Repr

/-- `PlayerState`: the engine's per-seat hand state. -/
structure PlayerState where
  seatIndex : Nat
  stack : Nat
  folded : Bool
  allIn : Bool
  totalContribution : Nat
  streetContribution : Nat
  holeCards : Card × Card
  actedThisStreet : Bool
deriving DecidableEq, Repr, Inhabited

/-- `LegalActionSet`, as computed by `computeLegal`. -/
structure LegalActionSet where
  canFold : Bool
  canCheck : Bool
  callAmount : Nat
  minBet : Nat
  minRaiseTo : Nat
  maxRaiseTo : Nat
  canAllIn : Bool
deriving DecidableEq, Repr

/-- `StepContext`, the result of `applyDecision`. -/
structure StepContext where
  actionCountInStreet : Nat
  handComplete : Bool
  newStreetStarted : Bool
deriving DecidableEq, Repr

/-- One blind level of the schedule. -/
structure BlindLevel where
  smallBlind : Nat
  bigBlind : Nat
deriving DecidableEq, Repr

/-- The constructor options of `HandEngine` (construction rejects an empty
blind schedule and `handsPerLevel = 0` per the configuration-error policy,
so those are assumed throughout). -/
structure EngineCfg where
  matchSeed : String
  startingStack : Nat
  blindLevels : List BlindLevel
  handsPerLevel : Nat

/-- `RuntimeHandState`.  The JS `Map<number, PlayerState>` is modelled as a
list in insertion order (ascending seat index at initialization); the
`orderByStreet` record is four lists, with turn and river sharing the flop
order at initialization exactly as the source assigns them. -/
structure RuntimeHandState where
  handNumber : Nat
  buttonSeatIndex : Nat
  street : Street
  board : List Card
  deck : List Card
  players : List PlayerState
  preflopOrder : List Nat
  flopOrder : List Nat
  turnOrder : List Nat
  riverOrder : List Nat
  actorPointer : Nat
  currentBet : Nat
  lastRaiseSize : Nat
  actions : List ActionRecord
  streetActionCount : Nat
deriving Repr

/-- `state.orderByStreet[state.street]`. -/
def RuntimeHandState.orderFor (st : RuntimeHandState) : Street → List Nat
  | .preflop => st.preflopOrder
  | .flop => st.flopOrder
  | .turn => st.turnOrder
  | .river => st.riverOrder

/-- `state.players.get(seat)`. -/
def getPlayer (st : RuntimeHandState) (seat : Nat) : Option PlayerState :=
  st.players.find? fun p => p.seatIndex == seat

/-- Overwrite the map entry of `seat` (JS mutates the found entry). -/
def setPlayer (players : List PlayerState) (seat : Nat) (f : PlayerState → PlayerState) :
    List PlayerState :=
  players.map fun p => if p.seatIndex == seat then f p else p

/-- `getBlindLevel`: blind schedule lookup, clamped to the last level. -/
def getBlindLevel (cfg : EngineCfg) (handNumber : Nat) : BlindLevel :=
  let levelIndex := (Nat.max handNumber 1 - 1) / cfg.handsPerLevel
  cfg.blindLevels.getD (Nat.min levelIndex (cfg.blindLevels.length - 1)) ⟨0, 0⟩

/-- `getLivePlayers`: seats that have not folded. -/
def getLivePlayers (st : RuntimeHandState) : List PlayerState :=
  st.players.filter fun p => !p.folded

/-- `getEligiblePlayers`: live seats that are not all-in. -/
def getEligiblePlayers (st : RuntimeHandState) : List PlayerState :=
  (getLivePlayers st).filter fun p => !p.allIn

/-- `computeLegal`: the legal action set for the acting seat. -/
def computeLegal (cfg : EngineCfg) (st : RuntimeHandState) (actor : PlayerState) :
    LegalActionSet :=
  let callAmount := st.currentBet - actor.streetContribution
  let maxRaiseTo := actor.streetContribution + actor.stack
  let minRaiseTo := Nat.min maxRaiseTo (st.currentBet + Nat.max st.lastRaiseSize 1)
  let blind := (getBlindLevel cfg st.handNumber).bigBlind
  { canFold := decide (0 < callAmount)
    canCheck := decide (callAmount = 0)
    callAmount := callAmount
    minBet := Nat.max blind st.lastRaiseSize
    minRaiseTo := minRaiseTo
    maxRaiseTo := maxRaiseTo
    canAllIn := decide (0 < actor.stack) }

/-! ## Seating and action-order helpers -/

/-- `nextPhysicalSeatIndex`: the next seat in physical table order,
wrapping; a negative or unknown cursor restarts at the first seat.  The
source throws on an empty table order, modelled as `none`. -/
def nextPhysicalSeatIndex (order : List Nat) (fromSeat : Int) : Option Nat :=
  match order with
  | [] => none
  | t0 :: _ =>
    if fromSeat < 0 then some t0
    else
      let f := fromSeat.toNat
      if order.contains f then
        some (order.getD ((order.indexOf f + 1) % order.length) 0)
      else some t0

/-- The walk of `nextActiveSeatIndex`: at most `order.length` physical
steps looking for a member of `activeSet`; the source throws when the walk
fails, modelled as `none`. -/
def nextActiveSeatAux (order activeSet : List Nat) : Nat → Int → Option Nat
  | 0, _ => none
  | fuel + 1, cursor =>
    match nextPhysicalSeatIndex order cursor with
    | none => none
    | some nxt =>
      if activeSet.contains nxt then some nxt
      else nextActiveSeatAux order activeSet fuel (nxt : Int)

/-- `nextActiveSeatIndex`; the source throws on an empty active set. -/
def nextActiveSeatIndex (order activeSet : List Nat) (fromSeat : Int) : Option Nat :=
  if activeSet.isEmpty then none
  else nextActiveSeatAux order activeSet order.length fromSeat

/-- The accumulation loop of `buildActionOrder` (`activeSet.size` pulls). -/
def buildActionOrderAux (order activeSet : List Nat) : Nat → Int → List Nat → Option (List Nat)
  | 0, _, acc => some acc.reverse
  | fuel + 1, cursor, acc =>
    match nextActiveSeatIndex order activeSet cursor with
    | none => none
    | some nxt => buildActionOrderAux order activeSet fuel (nxt : Int) (nxt :: acc)

/-- `buildActionOrder`: walk active seats starting after the given seat. -/
def buildActionOrder (order activeSet : List Nat) (startAfter : Int) : Option (List Nat) :=
  buildActionOrderAux order activeSet activeSet.length startAfter []

/-- The loop of `orderSeatIndexesClockwiseFrom`: up to `order.length`
physical steps while seats remain to place. -/
def orderClockwiseAux (order : List Nat) : Nat → Int → List Nat → List Nat → List Nat
  | 0, _, _, acc => acc.reverse
  | fuel + 1, cursor, remaining, acc =>
    if remaining.isEmpty then acc.reverse
    else
      match nextPhysicalSeatIndex order cursor with
      | none => acc.reverse
      | some nxt =>
        if remaining.contains nxt then
          orderClockwiseAux order fuel (nxt : Int) (remaining.erase nxt) (nxt :: acc)
        else orderClockwiseAux order fuel (nxt : Int) remaining acc

/-- `orderSeatIndexesClockwiseFrom`: the given seats reordered clockwise
starting immediately after `startAfter` (the set argument is dedup'd as a
JS `Set` would be). -/
def orderSeatIndexesClockwiseFrom (order : List Nat) (startAfter : Int)
    (seatIndexes : List Nat) : List Nat :=
  orderClockwiseAux order order.length startAfter seatIndexes.dedup []

/-- Stable ascending insertion into a sorted list (the embedding of the
JS `Array.prototype.sort` comparator calls). -/
def insertSorted (le : α → α → Bool) (a : α) : List α → List α
  | [] => [a]
  | b :: bs => if le a b then a :: b :: bs else b :: insertSorted le a bs

/-- Stable insertion sort, the embedding of `.sort((a, b) => a - b)` and
`.sort((a, b) => a.seatIndex - b.seatIndex)`. -/
def insertionSort (le : α → α → Bool) : List α → List α
  | [] => []
  | a :: as => insertSorted le a (insertionSort le as)

/-- `ensureTableSeatOrder`: union of previously seen seats and the hand's
active seats, sorted ascending (the JS `Set` dedups, then `sort`). -/
def ensureTableSeatOrder (tableSeatOrder : List Nat) (activeSeats : List SeatSnapshot) :
    List Nat :=
  insertionSort (fun a b => a ≤ b) ((tableSeatOrder ++ activeSeats.map (·.seatIndex)).dedup)

/-! ## Per-decision state machine -/

/-- `normalizeActorPointer`: advance the pointer (cyclically) to the first
seat in the street order whose player is neither folded nor all-in; leave
it unchanged when no such seat exists. -/
def normalizeActorPointer (st : RuntimeHandState) : RuntimeHandState :=
  let order := st.orderFor st.street
  match (List.range order.length).find? (fun i =>
      match getPlayer st (order.getD ((st.actorPointer + i) % order.length) 0) with
      | none => false
      | some p => !p.folded && !p.allIn) with
  | some i => { st with actorPointer := (st.actorPointer + i) % order.length }
  | none => st

/-- `canCloseStreet`: the street-closure test. -/
def canCloseStreet (st : RuntimeHandState) : Bool :=
  let active := getEligiblePlayers st
  if active.length ≤ 1 then true
  else
    active.all (fun p => p.actedThisStreet) &&
      active.all (fun p => p.streetContribution == st.currentBet || p.allIn)

/-- `advanceStreet`: at the river, report hand completion; otherwise move
to the next street, reset per-street state, pre-mark folded/all-in seats
as acted, and deal the flop (3 cards) or turn/river card.  Deck
exhaustion (a thrown error in the source) is `none`. -/
def advanceStreet (cfg : EngineCfg) (st : RuntimeHandState) :
    Option (StepContext × RuntimeHandState) :=
  if st.street = Street.river then
    some ({ actionCountInStreet := 0, handComplete := true, newStreetStarted := false }, st)
  else
    let nextStreet : Street :=
      match st.street with
      | .preflop => .flop
      | .flop => .turn
      | _ => .river
    let players := st.players.map fun p =>
      { p with streetContribution := 0, actedThisStreet := p.folded || p.allIn }
    let st1 := { st with
      street := nextStreet, actorPointer := 0, currentBet := 0,
      lastRaiseSize := (getBlindLevel cfg st.handNumber).bigBlind,
      streetActionCount := 0, players := players }
    let ctx : StepContext :=
      { actionCountInStreet := 0, handComplete := false, newStreetStarted := true }
    if nextStreet = Street.flop then
      match st1.deck with
      | c1 :: c2 :: c3 :: rest =>
        some (ctx, { st1 with board := st1.board ++ [c1, c2, c3], deck := rest })
      | _ => none
    else
      match st1.deck with
      | c :: rest => some (ctx, { st1 with board := st1.board ++ [c], deck := rest })
      | [] => none

/-- `moveActor`: cyclic pointer advance in the current street order. -/
def moveActor (st : RuntimeHandState) : RuntimeHandState :=
  { st with actorPointer := (st.actorPointer + 1) % (st.orderFor st.street).length }

/-- The body of `runOutBoard`: deal until the board has five cards. -/
def runOutAux : Nat → List Card → List Card → Option (List Card × List Card)
  | 0, board, deck => some (board, deck)
  | n + 1, board, deck =>
    match deck with
    | [] => none
    | c :: rest => runOutAux n (board ++ [c]) rest

/-- `runOutBoard`: complete the board and jump to the river street. -/
def runOutBoard (st : RuntimeHandState) : Option RuntimeHandState :=
  (runOutAux (5 - st.board.length) st.board st.deck).map fun bd =>
    { st with board := bd.1, deck := bd.2, street := Street.river }

/-- The per-action branch of `applyDecision`: mutate the acting player and
the street betting state, and append the action record.  `actor` is the
map entry found for the acting seat. -/
def applyActionBranch (cfg : EngineCfg) (st : RuntimeHandState) (actorSeat : Nat)
    (actor : PlayerState) (d : AppliedDecision) : RuntimeHandState :=
  let legal := computeLegal cfg st actor
  let toCall := legal.callAmount
  match d.action with
  | .fold =>
    let updated := { actor with folded := true, actedThisStreet := true }
    { st with
      players := setPlayer st.players actorSeat (fun _ => updated),
      actions := st.actions ++ [⟨actorSeat, .fold, 0, st.handNumber, st.street⟩] }
  | .check =>
    let updated := { actor with actedThisStreet := true }
    { st with
      players := setPlayer st.players actorSeat (fun _ => updated),
      actions := st.actions ++ [⟨actorSeat, .check, 0, st.handNumber, st.street⟩] }
  | .call =>
    let amount := Nat.min actor.stack toCall
    let updated := { actor with
      stack := actor.stack - amount,
      totalContribution := actor.totalContribution + amount,
      streetContribution := actor.streetContribution + amount,
      allIn := decide (actor.stack - amount = 0),
      actedThisStreet := true }
    { st with
      players := setPlayer st.players actorSeat (fun _ => updated),
      actions := st.actions ++ [⟨actorSeat, .call, amount, st.handNumber, st.street⟩] }
  | .bet | .raise =>
    let target := Nat.min d.amount (actor.streetContribution + actor.stack)
    let delta := target - actor.streetContribution
    let updated := { actor with
      stack := actor.stack - delta,
      totalContribution := actor.totalContribution + delta,
      streetContribution := target,
      allIn := decide (actor.stack - delta = 0),
      actedThisStreet := true }
    let previousBet := st.currentBet
    let newBet := Nat.max st.currentBet updated.streetContribution
    let players := (setPlayer st.players actorSeat (fun _ => updated)).map fun p =>
      if p.seatIndex == actorSeat || p.folded || p.allIn then p
      else { p with actedThisStreet := false }
    { st with
      players := players, currentBet := newBet,
      lastRaiseSize := Nat.max 1 (newBet - previousBet),
      actions := st.actions ++ [⟨actorSeat, d.action, target, st.handNumber, st.street⟩] }
  | .all_in =>
    let amount := actor.stack
    let updated := { actor with
      stack := 0,
      totalContribution := actor.totalContribution + amount,
      streetContribution := actor.streetContribution + amount,
      allIn := true, actedThisStreet := true }
    { st with
      players := setPlayer st.players actorSeat (fun _ => updated),
      currentBet := Nat.max st.currentBet updated.streetContribution,
      actions := st.actions ++ [⟨actorSeat, .all_in, amount, st.handNumber, st.street⟩] }

/-- The state after the action branch, with the street action count
bumped (`state.streetActionCount += 1`). -/
def postActionState (cfg : EngineCfg) (st : RuntimeHandState) (seat : Nat)
    (actor : PlayerState) (d : AppliedDecision) : RuntimeHandState :=
  let st1 := applyActionBranch cfg st seat actor d
  { st1 with streetActionCount := st1.streetActionCount + 1 }

/-- The tail of `applyDecision`: report the hand complete when at most one
live player remains, close the street when the closure test passes, and
otherwise pass the action to the next seat. -/
def resolveStep (cfg : EngineCfg) (st2 : RuntimeHandState) :
    Option (StepContext × RuntimeHandState) :=
  if (getLivePlayers st2).length ≤ 1 then
    some ({ actionCountInStreet := st2.streetActionCount, handComplete := true,
            newStreetStarted := false }, st2)
  else if canCloseStreet st2 then advanceStreet cfg st2
  else
    some ({ actionCountInStreet := st2.streetActionCount, handComplete := false,
            newStreetStarted := false }, moveActor st2)

/-- `applyDecision`: resolve the acting seat, run the action branch, bump
the street action count, then either report the hand complete (≤1 live
player), close the street, or pass action to the next seat.  The source's
thrown errors (missing hand state, unresolvable actor) are `none`. -/
def applyDecision (cfg : EngineCfg) (st : RuntimeHandState) (d : AppliedDecision) :
    Option (StepContext × RuntimeHandState) := do
  let order := st.orderFor st.street
  let actorSeat ← order[st.actorPointer]?
  let actor ← getPlayer st actorSeat
  resolveStep cfg (postActionState cfg st actorSeat actor d)

/-! ## Settlement -/

/-- One line of `ResolvedHand.updatedStacks`. -/
structure ResolvedSeat where
  seatIndex : Nat
  stack : Nat
  isEliminated : Bool
deriving DecidableEq, Repr

/-- `ResolvedHand`; winners are `(seatIndex, amountWon)` pairs in JS `Map`
insertion order. -/
structure ResolvedHand where
  handNumber : Nat
  board : List Card
  winners : List (Nat × Nat)
  updatedStacks : List ResolvedSeat
deriving DecidableEq, Repr

/-- `winnings.get(seat) ?? 0`: the amount credited to a seat so far. -/
def lookupW (w : List (Nat × Nat)) (seat : Nat) : Nat :=
  ((w.find? fun e => e.1 == seat).map (·.2)).getD 0

/-- `winnings.set(seat, (winnings.get(seat) ?? 0) + amt)`: update in place
when the key exists, append otherwise (JS `Map` insertion order). -/
def bumpWinnings (w : List (Nat × Nat)) (seat amt : Nat) : List (Nat × Nat) :=
  if w.any (fun e => e.1 == seat) then
    w.map fun e => if e.1 == seat then (e.1, e.2 + amt) else e
  else w ++ [(seat, amt)]

/-- The inner remainder loop of `settleHand`: each ordered winner gets
`base` plus one extra chip while remainder chips last. -/
def distributeTier (base : Nat) : List Nat → Nat → List (Nat × Nat) → List (Nat × Nat)
  | [], _, acc => acc
  | seat :: rest, remainder, acc =>
    let extra := if 0 < remainder then 1 else 0
    distributeTier base rest (remainder - 1) (bumpWinnings acc seat (base + extra))

/-- The tier loop of `settleHand`.  `winnersFn` is the external hand
ranking capability (`pokersolver`'s `Hand.solve`/`Hand.winners`): applied
to the eligible players and the board, it returns the seat indexes of the
eligible players holding a best hand, in eligible-list order. -/
def settleTiers (tso : List Nat) (button : Nat) (players contenders : List PlayerState)
    (board : List Card) (winnersFn : List PlayerState → List Card → List Nat) :
    List Nat → Nat → List (Nat × Nat) → List (Nat × Nat)
  | [], _, acc => acc
  | level :: rest, previous, acc =>
    let participants := players.filter fun p => level ≤ p.totalContribution
    let eligible := contenders.filter fun p => level ≤ p.totalContribution
    let potAmount := participants.length * (level - previous)
    if potAmount = 0 ∨ eligible.isEmpty then
      settleTiers tso button players contenders board winnersFn rest level acc
    else
      let winnerSeats := winnersFn eligible board
      let base := potAmount / winnerSeats.length
      let remainder := potAmount % winnerSeats.length
      let orderedWinners := orderSeatIndexesClockwiseFrom tso (button : Int) winnerSeats
      settleTiers tso button players contenders board winnersFn rest level
        (distributeTier base orderedWinners remainder acc)

/-- `settleHand`: fold-out and empty special cases, then tiered side-pot
settlement.  `tso` is the engine's `tableSeatOrder`, used for the odd-chip
clockwise ordering. -/
def settleHand (tso : List Nat) (winnersFn : List PlayerState → List Card → List Nat)
    (st : RuntimeHandState) : ResolvedHand :=
  let players := st.players
  let contenders := players.filter fun p => !p.folded
  let totalPot := (players.map (·.totalContribution)).sum
  if contenders.length = 1 then
    let winnerSeatIndex := (contenders.headD default).seatIndex
    { handNumber := st.handNumber
      board := st.board
      winners := [(winnerSeatIndex, totalPot)]
      updatedStacks := players.map fun p =>
        let won := if p.seatIndex = winnerSeatIndex then totalPot else 0
        ⟨p.seatIndex, p.stack + won, decide (p.stack + won = 0)⟩ }
  else if contenders.length = 0 then
    { handNumber := st.handNumber
      board := st.board
      winners := []
      updatedStacks := players.map fun p =>
        ⟨p.seatIndex, p.stack, decide (p.stack = 0)⟩ }
  else
    let contributionLevels :=
      insertionSort (fun a b => a ≤ b)
        (((players.map (·.totalContribution)).filter fun n => 0 < n).dedup)
    let winnings := settleTiers tso st.buttonSeatIndex players contenders st.board
      winnersFn contributionLevels 0 []
    { handNumber := st.handNumber
      board := st.board
      winners := winnings
      updatedStacks := players.map fun p =>
        let won := lookupW winnings p.seatIndex
        ⟨p.seatIndex, p.stack + won, decide (p.stack + won = 0)⟩ }

/-- Stated from the claim (C2): the pot tiers are the distinct strictly
positive total-contribution levels, sorted ascending. -/
def tierLevelsSpec (players : List PlayerState) : List Nat :=
  insertionSort (fun a b => a ≤ b)
    (((players.map (·.totalContribution)).filter fun n => 0 < n).dedup)

/-- Stated from the claim (C2): a tier of the given amount pays each
winner `base = ⌊amount / winnerCount⌋`, plus one odd chip to the first
`amount % winnerCount` winners in clockwise seat order starting
immediately after the button. -/
def tierPayoutSpec (tso : List Nat) (button : Nat) (winnerSeats : List Nat)
    (amount : Nat) (seat : Nat) : Nat :=
  let ordered := orderSeatIndexesClockwiseFrom tso (button : Int) winnerSeats
  if seat ∈ ordered then
    amount / winnerSeats.length +
      (if ordered.indexOf seat < amount % winnerSeats.length then 1 else 0)
  else 0

/-- Stated from the claim (C2): total winnings of a seat over the tiers.
For each level, participants are all seats with total contribution at
least the level, eligible seats are the non-folded participants, and the
tier amount is `participants.count × (level − previous)`; tiers with no
amount or no eligible seat pay nothing. -/
def settleTiersSpec (tso : List Nat) (button : Nat) (players : List PlayerState)
    (board : List Card) (winnersFn : List PlayerState → List Card → List Nat) :
    List Nat → Nat → Nat → Nat
  | [], _, _ => 0
  | level :: rest, previous, seat =>
    let participants := players.filter fun p => level ≤ p.totalContribution
    let eligible := participants.filter fun p => !p.folded
    let amount := participants.length * (level - previous)
    (if amount = 0 ∨ eligible.isEmpty then 0
     else tierPayoutSpec tso button (winnersFn eligible board) amount seat) +
      settleTiersSpec tso button players board winnersFn rest level seat

/-! ## Hand initialization -/

/-- `postBlind`: post up to `amount` from the seat's stack, flagging
all-in when the stack is exhausted.  A missing seat is a no-op. -/
def postBlind (players : List PlayerState) (seatIndex amount : Nat) : List PlayerState :=
  setPlayer players seatIndex fun p =>
    let posted := Nat.min p.stack amount
    { p with
      stack := p.stack - posted,
      totalContribution := p.totalContribution + posted,
      streetContribution := p.streetContribution + posted,
      allIn := decide (p.stack - posted = 0) }

/-- The hole-card dealing loop of `initializeHand`: two cards per seat in
sorted-seat order, `none` when the deck runs out (the source throws). -/
def dealHoleCards : List SeatSnapshot → List Card → Option (List PlayerState × List Card)
  | [], deck => some ([], deck)
  | seat :: rest, cardA :: cardB :: deck =>
    (dealHoleCards rest deck).map fun pd =>
      ({ seatIndex := seat.seatIndex, stack := seat.stack, folded := false, allIn := false,
         totalContribution := 0, streetContribution := 0, holeCards := (cardA, cardB),
         actedThisStreet := false } :: pd.1, pd.2)
  | _ :: _, _ => none

/-- The result of `initializeHand` together with the engine-level fields
it mutates (`tableSeatOrder`, `buttonSeatIndex`). -/
structure InitResult where
  tableSeatOrder : List Nat
  buttonSeatIndex : Nat
  state : RuntimeHandState
deriving Repr

/-- `initializeHand`, with the shuffled deck passed explicitly (the source
computes it as `shuffleDeckWithSeed(matchSeed + handNumber)`; see
`initializeHand` below).  Heads-up: the button advances to the next
*active* seat and posts the small blind.  Otherwise the button advances to
the next *physical* seat (dead button) and the blinds are the next two
active seats.  Thrown errors are `none`. -/
def initializeHandWithDeck (cfg : EngineCfg) (tableSeatOrder0 : List Nat)
    (button0 : Int) (activeSeats : List SeatSnapshot) (handNumber : Nat)
    (deck0 : List Card) : Option InitResult := do
  let tso := ensureTableSeatOrder tableSeatOrder0 activeSeats
  let sortedSeats := insertionSort (fun a b => a.seatIndex ≤ b.seatIndex) activeSeats
  let activeSet := (sortedSeats.map (·.seatIndex)).dedup
  let isHeadsUp := sortedSeats.length = 2
  let button ←
    if isHeadsUp then nextActiveSeatIndex tso activeSet button0
    else nextPhysicalSeatIndex tso button0
  let smallBlindSeat ←
    if isHeadsUp then some button
    else nextActiveSeatIndex tso activeSet (button : Int)
  let bigBlindSeat ← nextActiveSeatIndex tso activeSet (smallBlindSeat : Int)
  let preflopOrder ← buildActionOrder tso activeSet (bigBlindSeat : Int)
  let flopOrder ← buildActionOrder tso activeSet (button : Int)
  let dealt ← dealHoleCards sortedSeats deck0
  let blindLevel := getBlindLevel cfg handNumber
  let players := postBlind dealt.1 smallBlindSeat blindLevel.smallBlind
  let players := postBlind players bigBlindSeat blindLevel.bigBlind
  some
    { tableSeatOrder := tso
      buttonSeatIndex := button
      state :=
        { handNumber := handNumber
          buttonSeatIndex := button
          street := .preflop
          board := []
          deck := dealt.2
          players := players
          preflopOrder := preflopOrder
          flopOrder := flopOrder
          turnOrder := flopOrder
          riverOrder := flopOrder
          actorPointer := 0
          currentBet := blindLevel.bigBlind
          lastRaiseSize := blindLevel.bigBlind
          actions := []
          streetActionCount := 0 } }

/-- `initializeHand`: the per-hand deck is the shuffle of
`` `${matchSeed}:${handNumber}` ``. -/
def initializeHand (cfg : EngineCfg) (tableSeatOrder0 : List Nat) (button0 : Int)
    (activeSeats : List SeatSnapshot) (handNumber : Nat) : Option InitResult :=
  initializeHandWithDeck cfg tableSeatOrder0 button0 activeSeats handNumber
    (shuffleDeckWithSeed (cfg.matchSeed ++ (":") ++ toString handNumber))

/-! ## Decision requests -/

/-- The public per-seat snapshot inside a decision request. -/
structure SeatPublic where
  seatIndex : Nat
  stack : Nat
  folded : Bool
  allIn : Bool
  contribution : Nat
deriving DecidableEq, Repr

/-- `HandTickResult`: the decision request returned to the driver. -/
structure HandTickResult where
  handNumber : Nat
  street : Street
  actorSeatIndex : Nat
  legal : LegalActionSet
  board : List Card
  seats : List SeatPublic
  actionsThisHand : List ActionRecord
deriving DecidableEq, Repr

/-- The body of `nextDecision` once a hand state exists (after the
alive-seat guard and per-hand initialization): if no seat can act
voluntarily, run out the board and settle; otherwise re-normalize the
actor pointer and emit a decision request for the seat at the pointer.
Thrown errors (deck exhaustion, unresolvable actor) are `none`. -/
def nextDecisionFromState (cfg : EngineCfg) (tso : List Nat)
    (winnersFn : List PlayerState → List Card → List Nat) (st : RuntimeHandState) :
    Option (HandTickResult ⊕ ResolvedHand) :=
  if (getEligiblePlayers st).length = 0 then
    (runOutBoard st).map fun st1 => Sum.inr (settleHand tso winnersFn st1)
  else
    let st1 := normalizeActorPointer st
    let order := st1.orderFor st1.street
    match order[st1.actorPointer]? with
    | none => none
    | some actorSeat =>
      match getPlayer st1 actorSeat with
      | none => none
      | some actor =>
        some (Sum.inl
          { handNumber := st1.handNumber
            street := st1.street
            actorSeatIndex := actorSeat
            legal := computeLegal cfg st1 actor
            board := st1.board
            seats := st1.players.map fun p =>
              ⟨p.seatIndex, p.stack, p.folded, p.allIn, p.totalContribution⟩
            actionsThisHand := st1.actions })

/-! ## The external decision validator (`validateDecisionPayload`) -/

/-- The distinct rejection conditions of `validateDecisionPayload` (the
source throws `Error`s with fixed messages). -/
inductive DecisionRejection where
  | foldIllegal
  | checkIllegal
  | callIllegal
  | allInIllegal
  | betFacingWager
  | betOutOfBounds
  | raiseNoWager
  | raiseOutOfBounds
deriving DecidableEq, Repr

/-- `validateDecisionPayload`, after the structural JSON checks: the
action is already one of the closed enum and the amount has been floored
to a non-negative integer.  Legality is checked against the legal action
set; fold/check/call/all-in amounts are derived, bet/raise amounts are
bounds-checked. -/
def validateDecisionPayload (action : ActionKind) (amount : Nat)
    (legal : LegalActionSet) (actorStack : Nat) :
    Except DecisionRejection AppliedDecision :=
  match action with
  | .fold =>
    if !legal.canFold then .error .foldIllegal
    else .ok ⟨.fold, 0⟩
  | .check =>
    if !legal.canCheck then .error .checkIllegal
    else .ok ⟨.check, 0⟩
  | .call =>
    if legal.callAmount = 0 then .error .callIllegal
    else .ok ⟨.call, legal.callAmount⟩
  | .all_in =>
    if !legal.canAllIn ∨ actorStack = 0 then .error .allInIllegal
    else .ok ⟨.all_in, actorStack⟩
  | .bet =>
    if !legal.canCheck then .error .betFacingWager
    else if amount < legal.minBet ∨ legal.maxRaiseTo < amount then .error .betOutOfBounds
    else .ok ⟨.bet, amount⟩
  | .raise =>
    if legal.callAmount = 0 then .error .raiseNoWager
    else if amount < legal.minRaiseTo ∨ legal.maxRaiseTo < amount then .error .raiseOutOfBounds
    else .ok ⟨.raise, amount⟩

/-! ## Concrete scenario states used by the claim theorems -/

/-- A concrete engine configuration used by the concrete scenarios below
(the production runner's first blind level is 10/20). -/
def demoCfg : EngineCfg := ⟨("m"), 100, [⟨10, 20⟩], 10⟩

/-- Placeholder hole cards for concrete scenarios. -/
def dummyCards : Card × Card := (⟨.r2, .s⟩, ⟨.r3, .s⟩)

/-- C5 counterexample state: seat 0 to act with stack 50; seat 1 has
already acted at street contribution 20; seat 2 has not yet acted.
`currentBet = 20`, `lastRaiseSize = 20`. -/
def stC5 : RuntimeHandState :=
  { handNumber := 1, buttonSeatIndex := 2, street := .preflop, board := [], deck := createDeck,
    players := [
      ⟨0, 50, false, false, 0, 0, dummyCards, false⟩,
      ⟨1, 100, false, false, 20, 20, dummyCards, true⟩,
      ⟨2, 100, false, false, 20, 20, dummyCards, false⟩],
    preflopOrder := [0, 1, 2], flopOrder := [1, 2, 0], turnOrder := [1, 2, 0],
    riverOrder := [1, 2, 0], actorPointer := 0, currentBet := 20, lastRaiseSize := 20,
    actions := [], streetActionCount := 2 }

/-- C6 counterexample state: seat 0 to act with stack 200 and street
contribution 0, facing seat 1's bet of 100 (`currentBet = 100`). -/
def stC6 : RuntimeHandState :=
  { handNumber := 1, buttonSeatIndex := 2, street := .flop, board := [], deck := createDeck,
    players := [
      ⟨0, 200, false, false, 0, 0, dummyCards, false⟩,
      ⟨1, 100, false, false, 100, 100, dummyCards, true⟩,
      ⟨2, 300, false, false, 0, 0, dummyCards, false⟩],
    preflopOrder := [0, 1, 2], flopOrder := [0, 1, 2], turnOrder := [0, 1, 2],
    riverOrder := [0, 1, 2], actorPointer := 0, currentBet := 100, lastRaiseSize := 100,
    actions := [], streetActionCount := 1 }

/-- C4 witness state: two live seats, both acted and matched at bet 20 on
the preflop, with a full deck behind. -/
def stC4 : RuntimeHandState :=
  { handNumber := 1, buttonSeatIndex := 0, street := .preflop, board := [], deck := createDeck,
    players := [
      ⟨0, 80, false, false, 20, 20, dummyCards, true⟩,
      ⟨1, 80, false, false, 20, 20, dummyCards, true⟩],
    preflopOrder := [0, 1], flopOrder := [1, 0], turnOrder := [1, 0], riverOrder := [1, 0],
    actorPointer := 0, currentBet := 20, lastRaiseSize := 20, actions := [],
    streetActionCount := 2 }


/-- The decision request that `nextDecision` produces at `stC8`. -/
def resC8 : HandTickResult :=
  ⟨1, .preflop, 0, ⟨false, true, 0, 20, 40, 100, true⟩, [],
    [⟨0, 80, false, false, 20⟩], []⟩

/-- C8 witness state: one live seat to act. -/
def stC8 : RuntimeHandState :=
  { handNumber := 1, buttonSeatIndex := 0, street := .preflop, board := [], deck := [],
    players := [⟨0, 80, false, false, 20, 20, dummyCards, false⟩],
    preflopOrder := [0], flopOrder := [0], turnOrder := [0], riverOrder := [0],
    actorPointer := 0, currentBet := 20, lastRaiseSize := 20, actions := [],
    streetActionCount := 0 }

/-- C2 witness: three seats that each contributed 5; the winner function
declares seats 0 and 1 joint winners, leaving one odd chip. -/
def stC2 : RuntimeHandState :=
  { handNumber := 1, buttonSeatIndex := 2, street := .river, board := [], deck := [],
    players := [
      ⟨0, 0, false, true, 5, 0, dummyCards, true⟩,
      ⟨1, 0, false, true, 5, 0, dummyCards, true⟩,
      ⟨2, 0, false, true, 5, 0, dummyCards, true⟩],
    preflopOrder := [0, 1, 2], flopOrder := [1, 2, 0], turnOrder := [1, 2, 0],
    riverOrder := [1, 2, 0], actorPointer := 0, currentBet := 0, lastRaiseSize := 20,
    actions := [], streetActionCount := 0 }

/-- C2 witness winner function: the first two eligible seats win. -/
def wFnC2 : List PlayerState → List Card → List Nat :=
  fun elig _ => (elig.map (·.seatIndex)).take 2

/-- The seat sequence visited by repeated `nextPhysicalSeatIndex` steps
from a cursor (used to analyse the bounded seat walks). -/
def walkList (order : List Nat) : Nat → Int → List Nat
  | 0, _ => []
  | m + 1, cursor =>
    match nextPhysicalSeatIndex order cursor with
    | none => []
    | some nxt => nxt :: walkList order m (nxt : Int)

def seatsC1 : List SeatSnapshot :=
  [⟨0, 100, false⟩, ⟨1, 100, false⟩, ⟨2, 4, false⟩, ⟨3, 6, false⟩]

def wFnC1 : List PlayerState → List Card → List Nat :=
  fun elig _ => (elig.map (·.seatIndex)).take 1

def resolvedC1 : Option ResolvedHand := do
  let init ← initializeHandWithDeck demoCfg [] (-1) seatsC1 1 createDeck
  let (_, st1) ← applyDecision demoCfg init.state ⟨.all_in, 0⟩
  let (_, st2) ← applyDecision demoCfg st1 ⟨.fold, 0⟩
  let (_, st3) ← applyDecision demoCfg st2 ⟨.fold, 0⟩
  let st4 ← runOutBoard st3
  some (settleHand init.tableSeatOrder wFnC1 st4)

/-- Total chips credited by a winnings map. -/
def sumW (w : List (Nat × Nat)) : Nat :=
  (w.map (·.2)).sum

/-- The total amount the tier loop pays out: for each level, the number of
players contributing at least the level times the level increment. -/
def levelSum (players : List PlayerState) : List Nat → Nat → Nat
  | [], _ => 0
  | level :: rest, previous =>
    (players.filter fun p => level ≤ p.totalContribution).length * (level - previous) +
      levelSum players rest level

def wFnTake1 : List PlayerState → List Card → List Nat :=
  fun elig _ => (elig.map (·.seatIndex)).take 1

def stC1w : RuntimeHandState :=
  { handNumber := 1, buttonSeatIndex := 0, street := .river, board := [], deck := [],
    players := [
      ⟨0, 50, false, false, 20, 0, dummyCards, true⟩,
      ⟨1, 80, true, false, 10, 0, dummyCards, true⟩],
    preflopOrder := [0, 1], flopOrder := [1, 0], turnOrder := [1, 0],
    riverOrder := [1, 0], actorPointer := 0, currentBet := 0, lastRaiseSize := 20,
    actions := [], streetActionCount := 0 }

def handActiveSet (activeSeats : List SeatSnapshot) : List Nat :=
  ((insertionSort (fun a b => a.seatIndex ≤ b.seatIndex) activeSeats).map (·.seatIndex)).dedup

def seatsC7 : List SeatSnapshot := [⟨0, 100, false⟩, ⟨1, 100, false⟩]

def rC7 : InitResult :=
  (initializeHandWithDeck demoCfg [] (-1) seatsC7 1 createDeck).getD ⟨[], 0, stC1w⟩

/-! ## Shared helper lemmas -/

/-- `find?` by seat index commutes with a seat-preserving map. -/
theorem find?_map_key (l : List PlayerState) (f : PlayerState → PlayerState) (s : Nat)
    (hf : ∀ x, (f x).seatIndex = x.seatIndex) :
    (l.map f).find? (fun p => p.seatIndex == s) =
      (l.find? (fun p => p.seatIndex == s)).map f := by
  induction l with
  | nil => rfl
  | cons x xs ih =>
    by_cases hx : x.seatIndex = s
    · simp [List.find?, hf, hx]
    · simp only [List.map_cons, List.find?]
      rw [show ((f x).seatIndex == s) = false by simp [hf, hx],
        show (x.seatIndex == s) = false by simp [hx]]
      exact ih

theorem indexOf_getElem_self (order : List Nat) (hnd : order.Nodup) (k : Nat)
    (hk : k < order.length) : order.indexOf (order.get ⟨k, hk⟩) = k := by
  have hmem : order.get ⟨k, hk⟩ ∈ order := order.get_mem k hk
  have hlt : order.indexOf (order.get ⟨k, hk⟩) < order.length :=
    List.indexOf_lt_length.2 hmem
  have h1 : order[order.indexOf (order.get ⟨k, hk⟩)] = order.get ⟨k, hk⟩ :=
    List.getElem_indexOf hlt
  exact (List.Nodup.getElem_inj_iff hnd).1 h1

theorem nextPhysical_at_mem (order : List Nat) (hnd : order.Nodup) (k : Nat)
    (hk : k < order.length) :
    nextPhysicalSeatIndex order ((order.get ⟨k, hk⟩ : Nat) : Int) =
      some (order.getD ((k + 1) % order.length) 0) := by
  cases order with
  | nil => exact absurd hk (by simp)
  | cons t0 rest =>
    unfold nextPhysicalSeatIndex
    dsimp only
    rw [if_neg (Int.not_lt.2 (Int.natCast_nonneg _)), Int.toNat_natCast]
    have hmem : (t0 :: rest).get ⟨k, hk⟩ ∈ t0 :: rest := (t0 :: rest).get_mem k hk
    rw [if_pos (by simp [List.elem_iff, hmem])]
    rw [indexOf_getElem_self _ hnd k hk]

theorem mod_shift_exists (n a m : Nat) (hn : 0 < n) (hm : m < n) :
    ∃ i < n, (a + i) % n = m := by
  refine ⟨(m + n - a % n) % n, Nat.mod_lt _ hn, ?_⟩
  rw [Nat.add_mod_mod]
  have hdiv := Nat.mod_add_div a n
  have hle : a % n ≤ n := Nat.le_of_lt (Nat.mod_lt _ hn)
  have h1 : a + (m + n - a % n) = n * (a / n) + (m + n) := by omega
  rw [h1, Nat.mul_add_mod, Nat.add_mod_right]
  exact Nat.mod_eq_of_lt hm

theorem walkList_eq (order : List Nat) (hnd : order.Nodup) :
    ∀ (f k : Nat) (hk : k < order.length),
    walkList order f ((order.get ⟨k, hk⟩ : Nat) : Int) =
      (List.range f).map (fun i => order.getD ((k + 1 + i) % order.length) 0)
  | 0, k, hk => rfl
  | f + 1, k, hk => by
    have hlen : 0 < order.length := Nat.lt_of_le_of_lt (Nat.zero_le k) hk
    have hk' : (k + 1) % order.length < order.length := Nat.mod_lt _ hlen
    have hgd : order.getD ((k + 1) % order.length) 0 =
        order.get ⟨(k + 1) % order.length, hk'⟩ := by
      rw [List.getD_eq_getElem?_getD, List.getElem?_eq_getElem hk']
      rfl
    rw [walkList, nextPhysical_at_mem order hnd k hk, hgd]
    dsimp only
    rw [walkList_eq order hnd f ((k + 1) % order.length) hk',
      List.range_succ_eq_map, List.map_cons, List.map_map]
    refine congrArg₂ (· :: ·) hgd.symm ?_
    refine List.map_congr_left fun i _ => ?_
    simp only [Function.comp_apply]
    congr 1
    rw [Nat.add_assoc, Nat.mod_add_mod]
    congr 1
    omega

theorem walkList_full_nodup (order : List Nat) (hnd : order.Nodup) (k : Nat)
    (hk : k < order.length) :
    (walkList order order.length ((order.get ⟨k, hk⟩ : Nat) : Int)).Nodup := by
  rw [walkList_eq order hnd order.length k hk]
  have hlen : 0 < order.length := Nat.lt_of_le_of_lt (Nat.zero_le k) hk
  refine List.Nodup.map_on ?_ (List.nodup_range _)
  intro i hi j hj hg
  have hi' : i < order.length := List.mem_range.1 hi
  have hj' : j < order.length := List.mem_range.1 hj
  have hil : (k + 1 + i) % order.length < order.length := Nat.mod_lt _ hlen
  have hjl : (k + 1 + j) % order.length < order.length := Nat.mod_lt _ hlen
  rw [List.getD_eq_getElem?_getD, List.getElem?_eq_getElem hil,
    List.getD_eq_getElem?_getD, List.getElem?_eq_getElem hjl] at hg
  have hidx : (k + 1 + i) % order.length = (k + 1 + j) % order.length :=
    (List.Nodup.getElem_inj_iff hnd).1 (by simpa using hg)
  have hme : Nat.ModEq order.length i j :=
    Nat.ModEq.add_left_cancel' (k + 1) hidx
  have h2 : i % order.length = j % order.length := hme
  rw [Nat.mod_eq_of_lt hi', Nat.mod_eq_of_lt hj'] at h2
  exact h2

theorem mem_walkList_full (order : List Nat) (hnd : order.Nodup) (k : Nat)
    (hk : k < order.length) (y : Nat) (hy : y ∈ order) :
    y ∈ walkList order order.length ((order.get ⟨k, hk⟩ : Nat) : Int) := by
  rw [walkList_eq order hnd order.length k hk]
  obtain ⟨m, hm, hym⟩ := List.getElem_of_mem hy
  have hlen : 0 < order.length := Nat.lt_of_le_of_lt (Nat.zero_le k) hk
  obtain ⟨i, hi, hmod⟩ := mod_shift_exists order.length (k + 1) m hlen hm
  refine List.mem_map.2 ⟨i, List.mem_range.2 hi, ?_⟩
  rw [hmod, List.getD_eq_getElem?_getD, List.getElem?_eq_getElem hm]
  exact hym


/-- The clockwise collection loop collects exactly the remaining seats
when they all lie on the walk ahead. -/
theorem orderClockwiseAux_perm (order : List Nat) :
    ∀ (fuel : Nat) (cursor : Int) (remaining acc : List Nat),
    remaining.Nodup →
    (∀ x ∈ remaining, x ∈ walkList order fuel cursor) →
    (walkList order fuel cursor).Nodup →
    List.Perm (orderClockwiseAux order fuel cursor remaining acc)
      (acc.reverse ++ remaining)
  | 0, cursor, remaining, acc, hr, hsub, hwnd => by
    have hre : remaining = [] := by
      cases hxr : remaining with
      | nil => rfl
      | cons x xs =>
        exact absurd (hsub x (by rw [hxr]; exact List.mem_cons_self x xs)) (by
          intro hc
          cases hc)
    rw [hre, orderClockwiseAux]
    simp
  | fuel + 1, cursor, remaining, acc, hr, hsub, hwnd => by
    rw [orderClockwiseAux]
    by_cases hemp : remaining.isEmpty
    · rw [if_pos hemp]
      rw [List.isEmpty_iff.1 hemp]
      simp
    · rw [if_neg hemp]
      cases hnp : nextPhysicalSeatIndex order cursor with
      | none =>
        rw [walkList, hnp] at hsub
        dsimp only at hsub
        have hne : remaining ≠ [] := fun he => hemp (by rw [he]; rfl)
        obtain ⟨x, hx⟩ := List.exists_mem_of_ne_nil remaining hne
        exact absurd (hsub x hx) (List.not_mem_nil x)
      | some nxt =>
        rw [walkList, hnp] at hsub hwnd
        have hwnd' := List.nodup_cons.1 hwnd
        dsimp only
        by_cases hmem : remaining.contains nxt
        · rw [if_pos hmem]
          have hmem' : nxt ∈ remaining := by simpa using hmem
          have hperm := orderClockwiseAux_perm order fuel (nxt : Int)
            (remaining.erase nxt) (nxt :: acc) (hr.erase nxt) ?_ hwnd'.2
          · refine hperm.trans ?_
            rw [List.reverse_cons, List.append_assoc]
            refine List.Perm.append_left acc.reverse ?_
            have := (List.perm_cons_erase hmem').symm
            simpa using this
          · intro x hx
            have hxm : x ∈ remaining := List.mem_of_mem_erase hx
            have hxne : x ≠ nxt := (List.Nodup.mem_erase_iff hr).1 hx |>.1
            rcases List.mem_cons.1 (hsub x hxm) with h | h
            · exact absurd h hxne
            · exact h
        · rw [if_neg hmem]
          refine orderClockwiseAux_perm order fuel (nxt : Int) remaining acc hr ?_ hwnd'.2
          intro x hx
          rcases List.mem_cons.1 (hsub x hx) with h | h
          · subst h
            exact absurd (by simpa [List.elem_iff] using hx) hmem
          · exact h

/-- The clockwise winner ordering is a permutation of the (dedup'd) seat
set whenever those seats sit at the table. -/
theorem orderClockwise_perm (tso : List Nat) (hnd : tso.Nodup) (button : Nat)
    (hb : button ∈ tso) (ws : List Nat) (hws : ∀ x ∈ ws, x ∈ tso) :
    List.Perm (orderSeatIndexesClockwiseFrom tso (button : Int) ws) ws.dedup := by
  obtain ⟨k, hk, hbk⟩ := List.getElem_of_mem hb
  have hbk' : (button : Int) = ((tso.get ⟨k, hk⟩ : Nat) : Int) := by
    rw [show tso.get ⟨k, hk⟩ = tso[k] from rfl, hbk]
  unfold orderSeatIndexesClockwiseFrom
  rw [hbk']
  have := orderClockwiseAux_perm tso tso.length ((tso.get ⟨k, hk⟩ : Nat) : Int)
    ws.dedup [] (List.nodup_dedup ws) ?_ (walkList_full_nodup tso hnd k hk)
  · simpa using this
  · intro x hx
    exact mem_walkList_full tso hnd k hk x (hws x (List.mem_dedup.1 hx))


/-! ## Claim theorems -/

/-- C3: the legal action set satisfies exactly the claimed equations:
`callAmount = max(0, currentBet − c)`, `canCheck ↔ callAmount = 0`,
`canFold ↔ callAmount > 0`, `maxRaiseTo = c + s`,
`minRaiseTo = min(maxRaiseTo, currentBet + max(lastRaiseSize, 1))`,
`minBet = max(bigBlind, lastRaiseSize)`, `canAllIn ↔ s > 0`, and
check-legality and raise-legality are mutually exclusive. -/
theorem computeLegal_spec (cfg : EngineCfg) (st : RuntimeHandState) (actor : PlayerState) :
    ((computeLegal cfg st actor).callAmount : Int) =
      max 0 ((st.currentBet : Int) - (actor.streetContribution : Int)) ∧
    ((computeLegal cfg st actor).canCheck = true ↔
      (computeLegal cfg st actor).callAmount = 0) ∧
    ((computeLegal cfg st actor).canFold = true ↔
      0 < (computeLegal cfg st actor).callAmount) ∧
    (computeLegal cfg st actor).maxRaiseTo = actor.streetContribution + actor.stack ∧
    (computeLegal cfg st actor).minRaiseTo =
      Nat.min (computeLegal cfg st actor).maxRaiseTo
        (st.currentBet + Nat.max st.lastRaiseSize 1) ∧
    (computeLegal cfg st actor).minBet =
      Nat.max (getBlindLevel cfg st.handNumber).bigBlind st.lastRaiseSize ∧
    ((computeLegal cfg st actor).canAllIn = true ↔ 0 < actor.stack) ∧
    (computeLegal cfg st actor).canCheck = !(computeLegal cfg st actor).canFold := by
  refine ⟨?_, ?_, ?_, rfl, rfl, rfl, ?_, ?_⟩
  · simp only [computeLegal]
    omega
  · simp [computeLegal]
  · simp [computeLegal]
  · simp [computeLegal]
  · by_cases h : st.currentBet - actor.streetContribution = 0
    · simp [computeLegal, h]
    · simp [computeLegal, h]
      omega

/-- C5 counterexample: seat 0 goes all-in for 50, raising `currentBet`
from 20 to 50, yet seat 1's acted-this-street flag stays `true` and
`lastRaiseSize` stays 20 (the claimed reopening rule would reset the flag
and set `lastRaiseSize = 30`). -/
theorem applyDecision_all_in_no_reopen_counterexample :
    stC5.currentBet = 20 ∧ stC5.lastRaiseSize = 20 ∧
    (applyDecision demoCfg stC5 ⟨.all_in, 0⟩).map (fun r =>
      (r.2.currentBet, r.2.lastRaiseSize,
        (getPlayer r.2 1).map (·.actedThisStreet))) =
      some (50, 20, some true) := by
  refine ⟨rfl, rfl, ?_⟩
  decide

/-- C5 amended: the `all_in` branch commits the seat's entire remaining
stack and raises `currentBet` to its new street contribution when that
exceeds it, but performs no reopening at all: it never resets any other
seat's acted-this-street flag and never changes `lastRaiseSize`, even
when the all-in raises `currentBet`. -/
theorem applyActionBranch_all_in_amended (cfg : EngineCfg) (st : RuntimeHandState)
    (seat : Nat) (actor : PlayerState) (d : AppliedDecision) (hd : d.action = .all_in) :
    (applyActionBranch cfg st seat actor d).currentBet =
      Nat.max st.currentBet (actor.streetContribution + actor.stack) ∧
    (applyActionBranch cfg st seat actor d).lastRaiseSize = st.lastRaiseSize ∧
    (applyActionBranch cfg st seat actor d).players =
      setPlayer st.players seat (fun _ =>
        { actor with
          stack := 0, totalContribution := actor.totalContribution + actor.stack,
          streetContribution := actor.streetContribution + actor.stack,
          allIn := true, actedThisStreet := true }) ∧
    (applyActionBranch cfg st seat actor d).actions =
      st.actions ++ [⟨seat, .all_in, actor.stack, st.handNumber, st.street⟩] ∧
    ∀ p ∈ st.players, p.seatIndex ≠ seat → p ∈ (applyActionBranch cfg st seat actor d).players := by
  obtain ⟨act, amt⟩ := d
  cases hd
  refine ⟨rfl, rfl, rfl, rfl, ?_⟩
  intro p hp hne
  simp only [applyActionBranch, setPlayer]
  exact List.mem_map.2 ⟨p, hp, by simp [hne]⟩

/-- Witness for the amended C5 theorem at the concrete state `stC5`. -/
theorem applyActionBranch_all_in_amended_witness :
    (applyActionBranch demoCfg stC5 0 ⟨0, 50, false, false, 0, 0, dummyCards, false⟩
      ⟨.all_in, 0⟩).currentBet = Nat.max stC5.currentBet (0 + 50) ∧
    (applyActionBranch demoCfg stC5 0 ⟨0, 50, false, false, 0, 0, dummyCards, false⟩
      ⟨.all_in, 0⟩).lastRaiseSize = stC5.lastRaiseSize :=
  ⟨(applyActionBranch_all_in_amended demoCfg stC5 0 _ _ rfl).1,
    (applyActionBranch_all_in_amended demoCfg stC5 0 _ _ rfl).2.1⟩

/-- C6 counterexample: a raise to 50 while `currentBet = 100` leaves the
seat's street contribution at 50, below the current bet level, so the
claimed clamping of the target to `[current bet level, c + s]` (which
would force 100) does not happen: the code clamps from above only. -/
theorem applyDecision_bet_raise_no_lower_clamp_counterexample :
    stC6.currentBet = 100 ∧
    (applyDecision demoCfg stC6 ⟨.raise, 50⟩).map (fun r =>
      ((getPlayer r.2 0).map fun p =>
        (p.streetContribution, p.stack, p.totalContribution))) =
      some (some (50, 150, 50)) := by
  refine ⟨rfl, ?_⟩
  decide

/-- C6 amended: for a bet or raise of amount `A`, the target is
`min(A, c + s)` — clamped from above by the stack ceiling only, with no
lower clamp at the current bet level; `max(0, target − c)` chips move
from the stack, the street contribution is set to the target, the seat is
all-in exactly when its stack is exhausted, `currentBet` becomes
`max(currentBet, target)`, `lastRaiseSize` becomes the increase in
`currentBet` with a minimum of 1, and every other non-folded,
non-all-in seat's acted-this-street flag is reset. -/
theorem applyActionBranch_bet_raise_amended (cfg : EngineCfg) (st : RuntimeHandState)
    (seat : Nat) (actor : PlayerState) (d : AppliedDecision)
    (hd : d.action = .bet ∨ d.action = .raise)
    (hp : actor ∈ st.players) (hsa : actor.seatIndex = seat) :
    { actor with
      stack := actor.stack - (Nat.min d.amount (actor.streetContribution + actor.stack)
        - actor.streetContribution),
      totalContribution := actor.totalContribution +
        (Nat.min d.amount (actor.streetContribution + actor.stack)
          - actor.streetContribution),
      streetContribution := Nat.min d.amount (actor.streetContribution + actor.stack),
      allIn := decide (actor.stack - (Nat.min d.amount
        (actor.streetContribution + actor.stack) - actor.streetContribution) = 0),
      actedThisStreet := true } ∈ (applyActionBranch cfg st seat actor d).players ∧
    (applyActionBranch cfg st seat actor d).currentBet =
      Nat.max st.currentBet (Nat.min d.amount (actor.streetContribution + actor.stack)) ∧
    (applyActionBranch cfg st seat actor d).lastRaiseSize =
      Nat.max 1 ((applyActionBranch cfg st seat actor d).currentBet - st.currentBet) ∧
    (applyActionBranch cfg st seat actor d).actions =
      st.actions ++ [⟨seat, d.action,
        Nat.min d.amount (actor.streetContribution + actor.stack),
        st.handNumber, st.street⟩] ∧
    (∀ p ∈ st.players, p.seatIndex ≠ seat → p.folded = false → p.allIn = false →
      { p with actedThisStreet := false } ∈ (applyActionBranch cfg st seat actor d).players) ∧
    (∀ p ∈ st.players, p.seatIndex ≠ seat → (p.folded = true ∨ p.allIn = true) →
      p ∈ (applyActionBranch cfg st seat actor d).players) := by
  obtain ⟨act, amt⟩ := d
  rcases hd with hd | hd <;> cases hd <;>
  · refine ⟨?_, rfl, rfl, rfl, ?_, ?_⟩
    · simp only [applyActionBranch, setPlayer, List.map_map]
      refine List.mem_map.2 ⟨actor, hp, ?_⟩
      simp [Function.comp, hsa]
    · intro p hp2 hne hf ha
      simp only [applyActionBranch, setPlayer, List.map_map]
      refine List.mem_map.2 ⟨p, hp2, ?_⟩
      simp [Function.comp, hne, hf, ha]
    · intro p hp2 hne hfa
      simp only [applyActionBranch, setPlayer, List.map_map]
      refine List.mem_map.2 ⟨p, hp2, ?_⟩
      rcases hfa with h | h <;> simp [Function.comp, hne, h]

/-- Witness for the amended C6 theorem at `stC6` with a raise to 50. -/
theorem applyActionBranch_bet_raise_amended_witness :
    (applyActionBranch demoCfg stC6 0 ⟨0, 200, false, false, 0, 0, dummyCards, false⟩
      ⟨.raise, 50⟩).currentBet = Nat.max stC6.currentBet (Nat.min 50 (0 + 200)) :=
  (applyActionBranch_bet_raise_amended demoCfg stC6 0
    ⟨0, 200, false, false, 0, 0, dummyCards, false⟩ ⟨.raise, 50⟩
    (Or.inr rfl) (by decide) rfl).2.1

/-- `applyDecision` unfolded at a resolved actor. -/
theorem applyDecision_eq (cfg : EngineCfg) (st : RuntimeHandState) (d : AppliedDecision)
    (seat : Nat) (actor : PlayerState)
    (h1 : (st.orderFor st.street)[st.actorPointer]? = some seat)
    (h2 : getPlayer st seat = some actor) :
    applyDecision cfg st d = resolveStep cfg (postActionState cfg st seat actor d) := by
  simp only [applyDecision, h1, bind, Option.some_bind, h2]

/-- Every action branch appends exactly one action record for the acting
seat, carrying the decided action kind. -/
theorem applyActionBranch_actions (cfg : EngineCfg) (st : RuntimeHandState)
    (seat : Nat) (actor : PlayerState) (d : AppliedDecision) :
    ∃ amt, (applyActionBranch cfg st seat actor d).actions =
      st.actions ++ [⟨seat, d.action, amt, st.handNumber, st.street⟩] := by
  obtain ⟨act, amount⟩ := d
  cases act
  · exact ⟨0, rfl⟩
  · exact ⟨0, rfl⟩
  · exact ⟨Nat.min actor.stack (computeLegal cfg st actor).callAmount, rfl⟩
  · exact ⟨Nat.min amount (actor.streetContribution + actor.stack), rfl⟩
  · exact ⟨Nat.min amount (actor.streetContribution + actor.stack), rfl⟩
  · exact ⟨actor.stack, rfl⟩

/-- The action branch never touches the deck. -/
theorem applyActionBranch_deck (cfg : EngineCfg) (st : RuntimeHandState)
    (seat : Nat) (actor : PlayerState) (d : AppliedDecision) :
    (applyActionBranch cfg st seat actor d).deck = st.deck := by
  obtain ⟨act, amount⟩ := d
  cases act <;> rfl

/-- With at least three cards left, `advanceStreet` cannot hit deck
exhaustion. -/
theorem advanceStreet_isSome (cfg : EngineCfg) (st : RuntimeHandState)
    (hdeck : 3 ≤ st.deck.length) : (advanceStreet cfg st).isSome := by
  unfold advanceStreet
  by_cases hs : st.street = Street.river
  · simp [hs]
  · simp only [hs, if_false]
    match hd : st.deck, hdeck with
    | c1 :: c2 :: c3 :: rest, _ =>
      cases st.street <;> simp_all

/-- `advanceStreet` preserves the action log. -/
theorem advanceStreet_actions (cfg : EngineCfg) (st : RuntimeHandState)
    (ctx : StepContext) (st2 : RuntimeHandState)
    (h : advanceStreet cfg st = some (ctx, st2)) : st2.actions = st.actions := by
  unfold advanceStreet at h
  by_cases hs : st.street = Street.river
  · simp [hs] at h
    rw [← h.2]
  · simp only [hs, if_false] at h
    split at h <;> split at h <;> simp_all <;> rw [← h.2]

/-- C10 (implicit): `applyDecision` performs no legality validation: with
a resolvable actor and enough deck, every structurally well-formed
decision is applied and recorded without error; a check that faces a
positive call amount still only marks the seat as acted, leaving its
stack and contributions untouched and the bet level unchanged; a raise
whose amount is below `minRaiseTo` is applied at its face amount.
Legality is enforced only by the external `validateDecisionPayload`,
which rejects such a check and such a raise. -/
theorem applyDecision_no_validation (cfg : EngineCfg) (st : RuntimeHandState)
    (d : AppliedDecision) (seat : Nat) (actor : PlayerState)
    (h1 : (st.orderFor st.street)[st.actorPointer]? = some seat)
    (h2 : getPlayer st seat = some actor)
    (hdeck : 3 ≤ st.deck.length) :
    (∃ ctx st2, applyDecision cfg st d = some (ctx, st2) ∧
      ∃ amt, st2.actions = st.actions ++ [⟨seat, d.action, amt, st.handNumber, st.street⟩]) ∧
    (d.action = .check → 0 < st.currentBet - actor.streetContribution →
      { actor with actedThisStreet := true } ∈ (applyActionBranch cfg st seat actor d).players ∧
      (applyActionBranch cfg st seat actor d).currentBet = st.currentBet) ∧
    (d.action = .raise → actor.streetContribution ≤ d.amount →
      d.amount ≤ actor.streetContribution + actor.stack →
      d.amount < (computeLegal cfg st actor).minRaiseTo →
      { actor with
        stack := actor.stack - (d.amount - actor.streetContribution),
        totalContribution := actor.totalContribution + (d.amount - actor.streetContribution),
        streetContribution := d.amount,
        allIn := decide (actor.stack - (d.amount - actor.streetContribution) = 0),
        actedThisStreet := true } ∈ (applyActionBranch cfg st seat actor d).players) ∧
    (∀ (legal : LegalActionSet) (stk amt2 : Nat), legal.canCheck = false →
      validateDecisionPayload .check amt2 legal stk = .error .checkIllegal) ∧
    (∀ (legal : LegalActionSet) (stk amt2 : Nat), 0 < legal.callAmount →
      amt2 < legal.minRaiseTo →
      validateDecisionPayload .raise amt2 legal stk = .error .raiseOutOfBounds) := by
  have hmem' : st.players.find? (fun p => p.seatIndex == seat) = some actor := h2
  have hp : actor ∈ st.players := List.mem_of_find?_eq_some hmem'
  have hseat : (actor.seatIndex == seat) = true := by simpa using List.find?_some hmem'
  refine ⟨?_, ?_, ?_, ?_, ?_⟩
  · rw [applyDecision_eq cfg st d seat actor h1 h2]
    obtain ⟨amt, hamt⟩ := applyActionBranch_actions cfg st seat actor d
    have hact2 : (postActionState cfg st seat actor d).actions =
        st.actions ++ [⟨seat, d.action, amt, st.handNumber, st.street⟩] := hamt
    unfold resolveStep
    by_cases hlive : (getLivePlayers (postActionState cfg st seat actor d)).length ≤ 1
    · exact ⟨_, _, by rw [if_pos hlive], ⟨amt, hact2⟩⟩
    · by_cases hclose : canCloseStreet (postActionState cfg st seat actor d) = true
      · have hds : 3 ≤ (postActionState cfg st seat actor d).deck.length := by
          show 3 ≤ (applyActionBranch cfg st seat actor d).deck.length
          rw [applyActionBranch_deck]
          exact hdeck
        obtain ⟨res, hres⟩ := Option.isSome_iff_exists.1 (advanceStreet_isSome cfg _ hds)
        obtain ⟨ctx2, st3⟩ := res
        refine ⟨ctx2, st3, ?_, ⟨amt, ?_⟩⟩
        · rw [if_neg hlive, if_pos hclose]
          exact hres
        · rw [advanceStreet_actions cfg _ ctx2 st3 hres]
          exact hact2
      · refine ⟨_, moveActor (postActionState cfg st seat actor d),
          by rw [if_neg hlive, if_neg hclose], ⟨amt, ?_⟩⟩
        exact hact2
  · intro hcheck _
    obtain ⟨act, amount⟩ := d
    cases hcheck
    refine ⟨?_, rfl⟩
    simp only [applyActionBranch, setPlayer]
    exact List.mem_map.2 ⟨actor, hp, by simp [hseat]⟩
  · intro hraise hlo hhi _
    obtain ⟨act, amount⟩ := d
    cases hraise
    simp only [applyActionBranch, setPlayer, List.map_map]
    refine List.mem_map.2 ⟨actor, hp, ?_⟩
    have hmin : Nat.min amount (actor.streetContribution + actor.stack) = amount :=
      Nat.min_eq_left hhi
    simp [Function.comp, hseat, hmin]
  · intro legal stk amt2 hcc
    simp [validateDecisionPayload, hcc]
  · intro legal stk amt2 hpos hlt
    have : ¬ legal.callAmount = 0 := by omega
    simp [validateDecisionPayload, this, hlt]

/-- C4: after a decision is applied (with at least two live players so
betting continues), the street closes exactly when at most one seat can
act voluntarily or every such seat has acted and matched the bet (or is
all-in); closure before the river advances one street — resetting street
contributions, pre-marking folded/all-in seats as acted, dealing 3 cards
for the flop and 1 for turn/river, and resetting `currentBet` to 0 and
`lastRaiseSize` to the big blind — while closure at the river reports the
hand complete instead. -/
theorem streetClosure_spec (cfg : EngineCfg) (st2 : RuntimeHandState)
    (hlive : 2 ≤ (getLivePlayers st2).length) (hdeck : 3 ≤ st2.deck.length) :
    (canCloseStreet st2 = true ↔
      ((getEligiblePlayers st2).length ≤ 1 ∨
        ∀ p ∈ getEligiblePlayers st2, p.actedThisStreet = true ∧
          (p.streetContribution = st2.currentBet ∨ p.allIn = true))) ∧
    (canCloseStreet st2 = false →
      resolveStep cfg st2 = some ({ actionCountInStreet := st2.streetActionCount,
                                    handComplete := false, newStreetStarted := false },
        moveActor st2)) ∧
    (canCloseStreet st2 = true → st2.street = Street.river →
      resolveStep cfg st2 = some ({ actionCountInStreet := 0, handComplete := true,
                                    newStreetStarted := false }, st2)) ∧
    (canCloseStreet st2 = true → st2.street ≠ Street.river →
      ∃ ctx st3, resolveStep cfg st2 = some (ctx, st3) ∧
        ctx.handComplete = false ∧ ctx.newStreetStarted = true ∧
        st3.street = (match st2.street with
          | .preflop => Street.flop
          | .flop => Street.turn
          | _ => Street.river) ∧
        st3.players = st2.players.map (fun p =>
          { p with streetContribution := 0, actedThisStreet := p.folded || p.allIn }) ∧
        st3.currentBet = 0 ∧
        st3.lastRaiseSize = (getBlindLevel cfg st2.handNumber).bigBlind ∧
        st3.actorPointer = 0 ∧ st3.streetActionCount = 0 ∧
        st3.board = st2.board ++ st2.deck.take (if st2.street = Street.preflop then 3 else 1) ∧
        st3.deck = st2.deck.drop (if st2.street = Street.preflop then 3 else 1)) := by
  have hnotle : ¬ (getLivePlayers st2).length ≤ 1 := by omega
  refine ⟨?_, ?_, ?_, ?_⟩
  · unfold canCloseStreet
    by_cases hle : (getEligiblePlayers st2).length ≤ 1
    · simp [hle]
    · simp only [hle, if_false, Bool.and_eq_true, List.all_eq_true, Bool.or_eq_true,
        beq_iff_eq]
      constructor
      · rintro ⟨ha, hb⟩
        exact Or.inr fun p hp => ⟨ha p hp, hb p hp⟩
      · rintro (h | h)
        · exact h.elim
        · exact ⟨fun p hp => (h p hp).1, fun p hp => (h p hp).2⟩
  · intro hcl
    unfold resolveStep
    rw [if_neg hnotle, hcl]
    simp
  · intro hcl hriver
    unfold resolveStep
    rw [if_neg hnotle, hcl, if_pos rfl]
    unfold advanceStreet
    rw [if_pos hriver]
  · intro hcl hriver
    obtain ⟨c1, c2, c3, rest, hdk⟩ : ∃ c1 c2 c3 rest, st2.deck = c1 :: c2 :: c3 :: rest := by
      match st2.deck, hdeck with
      | a :: b :: c :: r, _ => exact ⟨a, b, c, r, rfl⟩
    unfold resolveStep
    rw [if_neg hnotle, hcl, if_pos rfl]
    unfold advanceStreet
    rw [if_neg hriver]
    cases hst : st2.street with
    | preflop =>
      simp only [hdk]
      refine ⟨_, _, rfl, rfl, rfl, rfl, rfl, rfl, rfl, rfl, rfl, ?_, ?_⟩ <;> simp
    | flop =>
      simp only [hdk]
      refine ⟨_, _, rfl, rfl, rfl, rfl, rfl, rfl, rfl, rfl, rfl, ?_, ?_⟩ <;> simp
    | turn =>
      simp only [hdk]
      refine ⟨_, _, rfl, rfl, rfl, rfl, rfl, rfl, rfl, rfl, rfl, ?_, ?_⟩ <;> simp
    | river => exact absurd hst hriver

/-- Witness for C4 at `stC4`: the closure test passes and the engine deals
a three-card flop. -/
theorem streetClosure_spec_witness :
    (canCloseStreet stC4 = true ↔
      ((getEligiblePlayers stC4).length ≤ 1 ∨
        ∀ p ∈ getEligiblePlayers stC4, p.actedThisStreet = true ∧
          (p.streetContribution = stC4.currentBet ∨ p.allIn = true))) ∧
    (canCloseStreet stC4 = true → stC4.street ≠ Street.river →
      ∃ ctx st3, resolveStep demoCfg stC4 = some (ctx, st3) ∧
        ctx.handComplete = false ∧ ctx.newStreetStarted = true ∧
        st3.street = (match stC4.street with
          | .preflop => Street.flop
          | .flop => Street.turn
          | _ => Street.river) ∧
        st3.players = stC4.players.map (fun p =>
          { p with streetContribution := 0, actedThisStreet := p.folded || p.allIn }) ∧
        st3.currentBet = 0 ∧
        st3.lastRaiseSize = (getBlindLevel demoCfg stC4.handNumber).bigBlind ∧
        st3.actorPointer = 0 ∧ st3.streetActionCount = 0 ∧
        st3.board = stC4.board ++ stC4.deck.take (if stC4.street = Street.preflop then 3 else 1) ∧
        st3.deck = stC4.deck.drop (if stC4.street = Street.preflop then 3 else 1)) :=
  ⟨(streetClosure_spec demoCfg stC4 (by decide) (by decide)).1,
    (streetClosure_spec demoCfg stC4 (by decide) (by decide)).2.2.2⟩

/-- Witness for C10: at `stC6` a check facing a 100-chip call amount and a
below-minimum raise are both applied by the engine, and both are rejected
by the validator. -/
theorem applyDecision_no_validation_witness :
    (∃ ctx st2, applyDecision demoCfg stC6 ⟨.check, 0⟩ = some (ctx, st2) ∧
      ∃ amt, st2.actions = stC6.actions ++ [⟨0, .check, amt, stC6.handNumber, stC6.street⟩]) ∧
    validateDecisionPayload .check 0
      (computeLegal demoCfg stC6 ⟨0, 200, false, false, 0, 0, dummyCards, false⟩) 200 =
      .error .checkIllegal := by
  have h := applyDecision_no_validation demoCfg stC6 ⟨.check, 0⟩ 0
    ⟨0, 200, false, false, 0, 0, dummyCards, false⟩ rfl (by decide) (by decide)
  exact ⟨h.1, h.2.2.2.1 _ 200 0 (by decide)⟩

/-- With pairwise-distinct seat indexes, the map lookup of a member's
seat returns that member. -/
theorem find?_seat_of_mem_nodup (l : List PlayerState) (p : PlayerState)
    (hnd : (l.map (·.seatIndex)).Nodup) (hp : p ∈ l) :
    l.find? (fun q => q.seatIndex == p.seatIndex) = some p := by
  induction l with
  | nil => cases hp
  | cons x xs ih =>
    rcases List.mem_cons.1 hp with h | h
    · subst h
      simp [List.find?]
    · have hnd2 : x.seatIndex ∉ xs.map (·.seatIndex) ∧ (xs.map (·.seatIndex)).Nodup := by
        rw [List.map_cons, List.nodup_cons] at hnd
        exact hnd
      have hx : ¬ x.seatIndex = p.seatIndex := fun he =>
        hnd2.1 (he ▸ List.mem_map_of_mem (·.seatIndex) h)
      rw [List.find?]
      rw [show (x.seatIndex == p.seatIndex) = false by simp [hx]]
      exact ih hnd2.2 h

/-- C8: whenever `nextDecision` (modelled from the point where a hand
state exists) returns a decision request, the reported acting seat's
player is neither folded nor all-in: the actor pointer is re-normalized
against the player map on the decision request itself.  The hypotheses
are invariants of engine-built states: seat indexes are pairwise
distinct, and every player's seat appears in the current street's action
order. -/
theorem nextDecision_actor_voluntary (cfg : EngineCfg) (tso : List Nat)
    (wFn : List PlayerState → List Card → List Nat) (st : RuntimeHandState)
    (res : HandTickResult)
    (hnd : (st.players.map (·.seatIndex)).Nodup)
    (hord : ∀ p ∈ st.players, p.seatIndex ∈ st.orderFor st.street)
    (h : nextDecisionFromState cfg tso wFn st = some (Sum.inl res)) :
    ∃ p ∈ st.players, p.seatIndex = res.actorSeatIndex ∧
      p.folded = false ∧ p.allIn = false := by
  unfold nextDecisionFromState at h
  by_cases hel : (getEligiblePlayers st).length = 0
  · rw [if_pos hel] at h
    cases hro : runOutBoard st with
    | none => rw [hro] at h; exact Option.noConfusion h
    | some st1 =>
      rw [hro] at h
      exact Sum.noConfusion (Option.some.inj h)
  · rw [if_neg hel] at h
    have hex : ∃ q, q ∈ getEligiblePlayers st :=
      List.exists_mem_of_length_pos (Nat.pos_of_ne_zero hel)
    obtain ⟨q, hq⟩ := hex
    have hq' := List.mem_filter.1 hq
    have hqlive := List.mem_filter.1 hq'.1
    have hqmem : q ∈ st.players := hqlive.1
    have hqf : q.folded = false := by simpa using hqlive.2
    have hqa : q.allIn = false := by simpa using hq'.2
    obtain ⟨k, hk, hkq⟩ := List.getElem_of_mem (hord q hqmem)
    set order := st.orderFor st.street with horder
    have hlen : 0 < order.length := Nat.lt_of_le_of_lt (Nat.zero_le k) hk
    have hoff : ∃ i ∈ List.range order.length,
        (match getPlayer st (order.getD ((st.actorPointer + i) % order.length) 0) with
          | none => false
          | some p => !p.folded && !p.allIn) = true := by
      refine ⟨(k + order.length - st.actorPointer % order.length) % order.length,
        List.mem_range.2 (Nat.mod_lt _ hlen), ?_⟩
      have hmod : (st.actorPointer +
          (k + order.length - st.actorPointer % order.length) % order.length) %
            order.length = k := by
        rw [Nat.add_mod_mod]
        have hdiv := Nat.mod_add_div st.actorPointer order.length
        have hle : st.actorPointer % order.length ≤ order.length :=
          Nat.le_of_lt (Nat.mod_lt _ hlen)
        have h1 : st.actorPointer + (k + order.length - st.actorPointer % order.length) =
            order.length * (st.actorPointer / order.length) + (k + order.length) := by
          omega
        rw [h1, Nat.mul_add_mod, Nat.add_mod_right]
        exact Nat.mod_eq_of_lt hk
      rw [hmod]
      have hgd : order.getD k 0 = q.seatIndex := by
        rw [List.getD_eq_getElem?_getD, List.getElem?_eq_getElem hk]
        exact hkq
      rw [hgd, getPlayer, find?_seat_of_mem_nodup st.players q hnd hqmem]
      simp [hqf, hqa]
    have hfindSome : ((List.range order.length).find? (fun i =>
        match getPlayer st (order.getD ((st.actorPointer + i) % order.length) 0) with
        | none => false
        | some p => !p.folded && !p.allIn)).isSome := by
      obtain ⟨i, hi, hpi⟩ := hoff
      exact List.find?_isSome.2 ⟨i, hi, hpi⟩
    obtain ⟨i0, hi0⟩ := Option.isSome_iff_exists.1 hfindSome
    have hpi0 := List.find?_some hi0
    have hi0lt : i0 < order.length := List.mem_range.1 (List.mem_of_find?_eq_some hi0)
    have hnorm : normalizeActorPointer st =
        { st with actorPointer := (st.actorPointer + i0) % order.length } := by
      simp only [normalizeActorPointer]
      rw [← horder, hi0]
    set m := (st.actorPointer + i0) % order.length with hmdef
    have hmlt : m < order.length := Nat.mod_lt _ hlen
    have hgetE : order[m]? = some (order.getD m 0) := by
      rw [List.getElem?_eq_getElem hmlt, List.getD_eq_getElem?_getD,
        List.getElem?_eq_getElem hmlt]
      rfl
    set seat0 := order.getD m 0 with hseat0def
    rw [hnorm] at h
    replace h : (match order[m]? with
      | none => none
      | some actorSeat =>
        match getPlayer ({ st with actorPointer := m } : RuntimeHandState) actorSeat with
        | none => none
        | some actor => some (Sum.inl
            ({ handNumber := st.handNumber, street := st.street, actorSeatIndex := actorSeat,
               legal := computeLegal cfg ({ st with actorPointer := m } : RuntimeHandState) actor,
               board := st.board,
               seats := st.players.map fun p =>
                 ⟨p.seatIndex, p.stack, p.folded, p.allIn, p.totalContribution⟩,
               actionsThisHand := st.actions } : HandTickResult))) = some (Sum.inl res) := h
    rw [hgetE] at h
    replace h : (match getPlayer st seat0 with
      | none => none
      | some actor => some (Sum.inl
          ({ handNumber := st.handNumber, street := st.street, actorSeatIndex := seat0,
             legal := computeLegal cfg ({ st with actorPointer := m } : RuntimeHandState) actor,
             board := st.board,
             seats := st.players.map fun p =>
               ⟨p.seatIndex, p.stack, p.folded, p.allIn, p.totalContribution⟩,
             actionsThisHand := st.actions } : HandTickResult))) = some (Sum.inl res) := h
    cases hgp : getPlayer st seat0 with
    | none =>
      rw [hgp] at h
      exact Option.noConfusion h
    | some p =>
      rw [hgp] at h
      have hrec := Sum.inl.inj (Option.some.inj h)
      have hseatres : res.actorSeatIndex = seat0 := by rw [← hrec]
      have hpmem : p ∈ st.players := List.mem_of_find?_eq_some hgp
      have hpseat : p.seatIndex = seat0 := by simpa using List.find?_some hgp
      have hpgood : (!p.folded && !p.allIn) = true := by
        rw [hgp] at hpi0
        exact hpi0
      refine ⟨p, hpmem, ?_, ?_, ?_⟩
      · rw [hpseat, hseatres]
      · rcases Bool.and_eq_true _ _ |>.mp hpgood with ⟨h1, _⟩
        simpa using h1
      · rcases Bool.and_eq_true _ _ |>.mp hpgood with ⟨_, h2⟩
        simpa using h2


/-- Witness for C8 at `stC8`: the single live seat 0 is reported as the
actor and is neither folded nor all-in. -/
theorem nextDecision_actor_voluntary_witness :
    ∃ p ∈ stC8.players, p.seatIndex = resC8.actorSeatIndex ∧
      p.folded = false ∧ p.allIn = false :=
  nextDecision_actor_voluntary demoCfg [] (fun _ _ => []) stC8 resC8
    (by decide) (by decide) (by decide)

/-- `find?` by first component commutes with a key-preserving map. -/
theorem find?_map_fst (w : List (Nat × Nat)) (f : Nat × Nat → Nat × Nat) (s : Nat)
    (hf : ∀ e, (f e).1 = e.1) :
    (w.map f).find? (fun e => e.1 == s) = (w.find? fun e => e.1 == s).map f := by
  induction w with
  | nil => rfl
  | cons x xs ih =>
    by_cases hx : x.1 = s
    · simp [List.find?, hf, hx]
    · simp only [List.map_cons, List.find?]
      rw [show ((f x).1 == s) = false by simp [hf, hx],
        show (x.1 == s) = false by simp [hx]]
      exact ih

theorem lookupW_bump_self (w : List (Nat × Nat)) (seat amt : Nat) :
    lookupW (bumpWinnings w seat amt) seat = lookupW w seat + amt := by
  unfold bumpWinnings
  by_cases hany : w.any (fun e => e.1 == seat)
  · rw [if_pos hany]
    unfold lookupW
    rw [find?_map_fst _ _ _ (fun e => by by_cases h : e.1 = seat <;> simp [h])]
    obtain ⟨e, he, hkey⟩ := List.any_eq_true.1 hany
    have hsome : (w.find? fun e => e.1 == seat).isSome := List.find?_isSome.2 ⟨e, he, hkey⟩
    obtain ⟨e0, he0⟩ := Option.isSome_iff_exists.1 hsome
    have hk0 : (e0.1 == seat) = true := by simpa using List.find?_some he0
    rw [he0]
    have he0s : e0.1 = seat := by simpa using hk0
    simp [he0s]
  · rw [if_neg hany]
    unfold lookupW
    have hnone : (w.find? fun e => e.1 == seat) = none := by
      rw [List.find?_eq_none]
      intro e he hk
      exact hany (List.any_eq_true.2 ⟨e, he, hk⟩)
    rw [List.find?_append, hnone]
    simp [List.find?]

theorem lookupW_bump_other (w : List (Nat × Nat)) (s t amt : Nat) (h : ¬ t = s) :
    lookupW (bumpWinnings w s amt) t = lookupW w t := by
  unfold bumpWinnings
  by_cases hany : w.any (fun e => e.1 == s)
  · rw [if_pos hany]
    unfold lookupW
    rw [find?_map_fst _ _ _ (fun e => by by_cases he : e.1 = s <;> simp [he])]
    cases hf : w.find? fun e => e.1 == t with
    | none => rfl
    | some e0 =>
      have hk0 : e0.1 = t := by simpa using List.find?_some hf
      have hne : ¬ e0.1 = s := fun he => h (hk0.symm.trans he)
      simp [hne]
  · rw [if_neg hany]
    unfold lookupW
    rw [List.find?_append]
    cases hf : w.find? fun e => e.1 == t with
    | none =>
      have hst : (s == t) = false := by
        rw [beq_eq_false_iff_ne]
        exact fun he => h he.symm
      simp [List.find?, hst]
    | some e0 => rfl

/-- The sequential odd-chip loop pays each ordered winner the base plus
one chip exactly when its clockwise position is below the remainder. -/
theorem distributeTier_lookup (base : Nat) :
    ∀ (ordered : List Nat) (remainder : Nat) (acc : List (Nat × Nat)) (seat : Nat),
    ordered.Nodup →
    lookupW (distributeTier base ordered remainder acc) seat =
      lookupW acc seat +
        (if seat ∈ ordered then
          base + (if ordered.indexOf seat < remainder then 1 else 0) else 0)
  | [], remainder, acc, seat, _ => by simp [distributeTier]
  | y :: rest, remainder, acc, seat, hnd => by
    have hnd' := List.nodup_cons.1 hnd
    rw [distributeTier]
    rw [distributeTier_lookup base rest (remainder - 1) _ seat hnd'.2]
    by_cases hy : seat = y
    · subst hy
      have hnin : seat ∉ rest := hnd'.1
      rw [lookupW_bump_self, if_neg hnin, if_pos (List.mem_cons_self seat rest),
        List.indexOf_cons_self]
      omega
    · rw [lookupW_bump_other _ _ _ _ hy]
      by_cases hin : seat ∈ rest
      · have hmema : seat ∈ y :: rest := List.mem_cons_of_mem y hin
        rw [if_pos hin, if_pos hmema,
          List.indexOf_cons_ne _ (fun he => hy he.symm)]
        rcases Nat.lt_or_ge (List.indexOf seat rest) (remainder - 1) with hlt | hge
        · rw [if_pos hlt, if_pos (show (List.indexOf seat rest).succ < remainder by omega)]
        · rw [if_neg (show ¬ List.indexOf seat rest < remainder - 1 by omega),
            if_neg (show ¬ (List.indexOf seat rest).succ < remainder by omega)]
      · have hnm : seat ∉ y :: rest := by
          intro hc
          rcases List.mem_cons.1 hc with hc | hc
          · exact hy hc
          · exact hin hc
        rw [if_neg hin, if_neg hnm]


/-- The clockwise collection loop never collects a seat twice. -/
theorem orderClockwiseAux_nodup (order : List Nat) :
    ∀ (fuel : Nat) (cursor : Int) (remaining acc : List Nat),
    remaining.Nodup → acc.Nodup → (∀ x ∈ acc, x ∉ remaining) →
    (orderClockwiseAux order fuel cursor remaining acc).Nodup
  | 0, cursor, remaining, acc, _, ha, _ => by
    simpa [orderClockwiseAux] using List.nodup_reverse.2 ha
  | fuel + 1, cursor, remaining, acc, hr, ha, hdisj => by
    rw [orderClockwiseAux]
    by_cases hemp : remaining.isEmpty
    · simpa [hemp] using List.nodup_reverse.2 ha
    · rw [if_neg hemp]
      cases hnp : nextPhysicalSeatIndex order cursor with
      | none => simpa using List.nodup_reverse.2 ha
      | some nxt =>
        dsimp only
        by_cases hmem : remaining.contains nxt
        · rw [if_pos hmem]
          have hmem' : nxt ∈ remaining := by simpa using hmem
          refine orderClockwiseAux_nodup order fuel _ _ _ (hr.erase nxt) ?_ ?_
          · exact List.nodup_cons.2 ⟨fun hc => hdisj nxt hc hmem', ha⟩
          · intro x hx
            rcases List.mem_cons.1 hx with hx | hx
            · subst hx
              exact hr.not_mem_erase
            · intro hc
              exact hdisj x hx (List.mem_of_mem_erase hc)
        · rw [if_neg hmem]
          exact orderClockwiseAux_nodup order fuel _ _ _ hr ha hdisj

/-- The clockwise winner ordering has no duplicate seats. -/
theorem orderClockwise_nodup (order : List Nat) (startAfter : Int) (seatIndexes : List Nat) :
    (orderSeatIndexesClockwiseFrom order startAfter seatIndexes).Nodup :=
  orderClockwiseAux_nodup order order.length startAfter seatIndexes.dedup []
    (List.nodup_dedup seatIndexes) List.nodup_nil (by intro x hx; cases hx)

/-- The tier loop of the code pays exactly the claim's per-tier formula,
tier by tier. -/
theorem settleTiers_lookup (tso : List Nat) (button : Nat)
    (players contenders : List PlayerState) (board : List Card)
    (wFn : List PlayerState → List Card → List Nat)
    (hcont : contenders = players.filter fun p => !p.folded) :
    ∀ (levels : List Nat) (previous : Nat) (acc : List (Nat × Nat)) (seat : Nat),
    lookupW (settleTiers tso button players contenders board wFn levels previous acc) seat =
      lookupW acc seat + settleTiersSpec tso button players board wFn levels previous seat
  | [], previous, acc, seat => by simp [settleTiers, settleTiersSpec]
  | level :: rest, previous, acc, seat => by
    have hfe : contenders.filter (fun p => level ≤ p.totalContribution) =
        (players.filter fun p => level ≤ p.totalContribution).filter
          (fun p => !p.folded) := by
      rw [hcont, List.filter_filter, List.filter_filter]
      exact List.filter_congr fun p _ => by
        by_cases h1 : p.folded <;> by_cases h2 : level ≤ p.totalContribution <;>
          simp [h1, h2]
    rw [settleTiers, settleTiersSpec]
    by_cases hsk : (players.filter fun p => level ≤ p.totalContribution).length *
        (level - previous) = 0 ∨
        ((players.filter fun p => level ≤ p.totalContribution).filter
          fun p => !p.folded).isEmpty
    · rw [if_pos (by rw [hfe]; exact hsk), if_pos hsk,
        settleTiers_lookup tso button players contenders board wFn hcont rest level acc seat]
      omega
    · rw [if_neg (by rw [hfe]; exact hsk), if_neg hsk,
        settleTiers_lookup tso button players contenders board wFn hcont rest level _ seat,
        distributeTier_lookup _ _ _ _ _ (orderClockwise_nodup tso (button : Int) _), hfe]
      simp only [tierPayoutSpec]
      omega

/-- C2: with at least two contenders, `settleHand` builds its pot tiers
from the distinct strictly positive contribution levels sorted ascending,
and pays every seat, tier by tier, `⌊amount / winnerCount⌋` plus one odd
chip when the seat is among the first `amount mod winnerCount` winners in
clockwise order after the button, where the tier amount is
`participants.count × (level − previous)`, participants are the seats
contributing at least the level, and the eligible seats are the
non-folded participants. -/
theorem settleHand_tier_distribution (tso : List Nat)
    (wFn : List PlayerState → List Card → List Nat) (st : RuntimeHandState)
    (h2 : 2 ≤ (st.players.filter fun p => !p.folded).length) :
    (settleHand tso wFn st).winners =
      settleTiers tso st.buttonSeatIndex st.players
        (st.players.filter fun p => !p.folded) st.board wFn
        (tierLevelsSpec st.players) 0 [] ∧
    ∀ seat, lookupW (settleHand tso wFn st).winners seat =
      settleTiersSpec tso st.buttonSeatIndex st.players st.board wFn
        (tierLevelsSpec st.players) 0 seat := by
  have hn1 : ¬ (st.players.filter fun p => !p.folded).length = 1 := by omega
  have hn0 : ¬ (st.players.filter fun p => !p.folded).length = 0 := by omega
  have hwinners : (settleHand tso wFn st).winners =
      settleTiers tso st.buttonSeatIndex st.players
        (st.players.filter fun p => !p.folded) st.board wFn
        (tierLevelsSpec st.players) 0 [] := by
    simp only [settleHand]
    rw [if_neg hn1, if_neg hn0]
    rfl
  refine ⟨hwinners, fun seat => ?_⟩
  rw [hwinners, settleTiers_lookup tso st.buttonSeatIndex st.players _ st.board wFn rfl
    (tierLevelsSpec st.players) 0 [] seat]
  simp [lookupW, List.find?]


/-- Witness for C2 at `stC2`: seat 0, first clockwise after the button,
receives the base 7 plus the odd chip. -/
theorem settleHand_tier_distribution_witness :
    lookupW (settleHand [0, 1, 2] wFnC2 stC2).winners 0 =
      settleTiersSpec [0, 1, 2] stC2.buttonSeatIndex stC2.players stC2.board wFnC2
        (tierLevelsSpec stC2.players) 0 0 :=
  (settleHand_tier_distribution [0, 1, 2] wFnC2 stC2 (by decide)).2 0

theorem sumW_nil : sumW [] = 0 := rfl

theorem sumW_cons (e : Nat × Nat) (w : List (Nat × Nat)) :
    sumW (e :: w) = e.2 + sumW w := by
  simp [sumW]

theorem bumpWinnings_pos (w : List (Nat × Nat)) (s a : Nat)
    (hany : w.any (fun e => e.1 == s) = true) :
    bumpWinnings w s a = w.map fun e => if e.1 == s then (e.1, e.2 + a) else e := by
  unfold bumpWinnings
  rw [if_pos hany]

theorem bumpWinnings_neg (w : List (Nat × Nat)) (s a : Nat)
    (hany : w.any (fun e => e.1 == s) = false) :
    bumpWinnings w s a = w ++ [(s, a)] := by
  unfold bumpWinnings
  rw [if_neg]
  rw [hany]
  exact Bool.false_ne_true

theorem sumW_bump_present (s a : Nat) :
    ∀ w : List (Nat × Nat), (w.map (·.1)).Nodup → w.any (fun e => e.1 == s) = true →
      sumW (w.map fun e => if e.1 == s then (e.1, e.2 + a) else e) = sumW w + a := by
  intro w
  induction w with
  | nil => intro _ hany; simp at hany
  | cons x xs ih =>
    intro hnd hany
    by_cases hx : x.1 = s
    · have hxs : ∀ e ∈ xs, (e.1 == s) = false := by
        intro e he
        have hnx : x.1 ∉ xs.map (·.1) := (List.nodup_cons.1 (by simpa using hnd)).1
        have : e.1 ≠ s := fun hes => hnx (hx ▸ hes ▸ List.mem_map_of_mem (·.1) he)
        simpa using this
      have hmap : (xs.map fun e => if e.1 == s then (e.1, e.2 + a) else e) = xs := by
        rw [show (xs.map fun e => if e.1 == s then (e.1, e.2 + a) else e) = xs.map id from
          List.map_congr_left fun e he => by rw [hxs e he]; rfl, List.map_id]
      rw [List.map_cons, hmap, if_pos (show (x.1 == s) = true by simpa using hx)]
      rw [sumW_cons, sumW_cons]
      show x.2 + a + sumW xs = x.2 + sumW xs + a
      omega
    · have hany' : xs.any (fun e => e.1 == s) = true := by
        rcases List.any_eq_true.1 hany with ⟨e, he, hes⟩
        rcases List.mem_cons.1 he with rfl | he'
        · exact absurd (by simpa using hes) hx
        · exact List.any_eq_true.2 ⟨e, he', hes⟩
      have hnd' : (xs.map (·.1)).Nodup := (List.nodup_cons.1 (by simpa using hnd)).2
      rw [List.map_cons, if_neg (show ¬(x.1 == s) = true by simpa using hx)]
      rw [sumW_cons, sumW_cons, ih hnd' hany']
      omega

/-- Crediting a seat adds exactly the credited amount to the total. -/
theorem sumW_bump (w : List (Nat × Nat)) (s a : Nat) (hnd : (w.map (·.1)).Nodup) :
    sumW (bumpWinnings w s a) = sumW w + a := by
  by_cases hany : w.any (fun e => e.1 == s)
  · rw [bumpWinnings_pos w s a hany]
    exact sumW_bump_present s a w hnd hany
  · have hany' : w.any (fun e => e.1 == s) = false := Bool.eq_false_iff.2 hany
    rw [bumpWinnings_neg w s a hany']
    simp [sumW]

theorem bump_keys_present (w : List (Nat × Nat)) (s a : Nat)
    (hany : w.any (fun e => e.1 == s) = true) :
    (bumpWinnings w s a).map (·.1) = w.map (·.1) := by
  rw [bumpWinnings_pos w s a hany, List.map_map]
  refine List.map_congr_left fun e he => ?_
  by_cases h : e.1 = s <;> simp [h]

theorem bump_keys_absent (w : List (Nat × Nat)) (s a : Nat)
    (hany : w.any (fun e => e.1 == s) = false) :
    (bumpWinnings w s a).map (·.1) = w.map (·.1) ++ [s] := by
  rw [bumpWinnings_neg w s a hany]
  simp

/-- Crediting a seat keeps the winnings keys duplicate-free. -/
theorem bump_keys_nodup (w : List (Nat × Nat)) (s a : Nat)
    (hnd : (w.map (·.1)).Nodup) : ((bumpWinnings w s a).map (·.1)).Nodup := by
  by_cases hany : w.any (fun e => e.1 == s)
  · rw [bump_keys_present w s a hany]; exact hnd
  · have hany' : w.any (fun e => e.1 == s) = false := Bool.eq_false_iff.2 hany
    rw [bump_keys_absent w s a hany']
    have hs : s ∉ w.map (·.1) := by
      intro hmem
      rcases List.mem_map.1 hmem with ⟨e, he, hes⟩
      have : w.any (fun e => e.1 == s) = true :=
        List.any_eq_true.2 ⟨e, he, by simpa using hes⟩
      rw [hany'] at this
      exact Bool.false_ne_true this
    simp [List.nodup_append, hnd, hs]

theorem bump_keys_sub (w : List (Nat × Nat)) (s a k : Nat)
    (hk : k ∈ (bumpWinnings w s a).map (·.1)) : k ∈ w.map (·.1) ∨ k = s := by
  by_cases hany : w.any (fun e => e.1 == s)
  · rw [bump_keys_present w s a hany] at hk; exact .inl hk
  · have hany' : w.any (fun e => e.1 == s) = false := Bool.eq_false_iff.2 hany
    rw [bump_keys_absent w s a hany'] at hk
    rcases List.mem_append.1 hk with h | h
    · exact .inl h
    · exact .inr (by simpa using h)

/-- Seats credited by the remainder loop come from the accumulator or the
ordered winner list. -/
theorem distributeTier_keys_sub (base : Nat) :
    ∀ (ordered : List Nat) (r : Nat) (acc : List (Nat × Nat)) (k : Nat),
      k ∈ (distributeTier base ordered r acc).map (·.1) → k ∈ acc.map (·.1) ∨ k ∈ ordered := by
  intro ordered
  induction ordered with
  | nil => intro r acc k hk; exact .inl hk
  | cons seat rest ih =>
    intro r acc k hk
    simp only [distributeTier] at hk
    rcases ih (r - 1) _ k hk with h | h
    · rcases bump_keys_sub acc seat _ k h with h' | h'
      · exact .inl h'
      · exact .inr (h' ▸ List.mem_cons_self seat rest)
    · exact .inr (List.mem_cons_of_mem seat h)

/-- The remainder loop keeps the winnings keys duplicate-free. -/
theorem distributeTier_keys_nodup (base : Nat) :
    ∀ (ordered : List Nat) (r : Nat) (acc : List (Nat × Nat)),
      (acc.map (·.1)).Nodup → ((distributeTier base ordered r acc).map (·.1)).Nodup := by
  intro ordered
  induction ordered with
  | nil => intro r acc h; exact h
  | cons seat rest ih =>
    intro r acc h
    simp only [distributeTier]
    exact ih (r - 1) _ (bump_keys_nodup acc seat _ h)

/-- The remainder loop pays out `base` per ordered winner plus one chip
per remainder unit, capped at the number of winners. -/
theorem distributeTier_sumW (base : Nat) :
    ∀ (ordered : List Nat) (r : Nat) (acc : List (Nat × Nat)),
      r ≤ ordered.length → (acc.map (·.1)).Nodup →
      sumW (distributeTier base ordered r acc) =
        sumW acc + base * ordered.length + r := by
  intro ordered
  induction ordered with
  | nil =>
    intro r acc hr _
    have hr0 : r = 0 := Nat.le_zero.1 (by simpa using hr)
    simp [distributeTier, hr0]
  | cons seat rest ih =>
    intro r acc hr h
    simp only [distributeTier]
    rw [ih (r - 1) _ (by simp at hr; omega) (bump_keys_nodup acc seat _ h),
      sumW_bump acc seat _ h]
    rcases Nat.eq_zero_or_pos r with hr0 | hr0
    · rw [if_neg (by omega)]
      simp only [List.length_cons]
      rw [Nat.mul_succ]
      omega
    · rw [if_pos hr0]
      simp only [List.length_cons]
      rw [Nat.mul_succ]
      omega

/-- Every seat placed by the clockwise ordering loop comes from the
accumulator or the remaining set. -/
theorem orderClockwiseAux_sub (order : List Nat) :
    ∀ (fuel : Nat) (cursor : Int) (remaining acc : List Nat) (x : Nat),
      x ∈ orderClockwiseAux order fuel cursor remaining acc → x ∈ acc ∨ x ∈ remaining := by
  intro fuel
  induction fuel with
  | zero =>
    intro cursor remaining acc x hx
    exact .inl (List.mem_reverse.1 (by simpa [orderClockwiseAux] using hx))
  | succ n ih =>
    intro cursor remaining acc x hx
    rw [orderClockwiseAux] at hx
    by_cases he : remaining.isEmpty
    · rw [if_pos he] at hx
      exact .inl (List.mem_reverse.1 hx)
    · rw [if_neg he] at hx
      cases hnp : nextPhysicalSeatIndex order cursor with
      | none =>
        rw [hnp] at hx
        exact .inl (List.mem_reverse.1 hx)
      | some nxt =>
        rw [hnp] at hx
        dsimp only at hx
        by_cases hc : remaining.contains nxt
        · rw [if_pos hc] at hx
          rcases ih (nxt : Int) (remaining.erase nxt) (nxt :: acc) x hx with h | h
          · rcases List.mem_cons.1 h with h' | h'
            · exact .inr (h' ▸ List.elem_iff.1 hc)
            · exact .inl h'
          · exact .inr (List.mem_of_mem_erase h)
        · rw [if_neg hc] at hx
          exact ih (nxt : Int) remaining acc x hx

/-- The clockwise winner ordering only contains the given seats. -/
theorem orderClockwise_sub (tso : List Nat) (startAfter : Int) (ws : List Nat) (x : Nat)
    (hx : x ∈ orderSeatIndexesClockwiseFrom tso startAfter ws) : x ∈ ws := by
  unfold orderSeatIndexesClockwiseFrom at hx
  rcases orderClockwiseAux_sub tso tso.length startAfter ws.dedup [] x hx with h | h
  · exact absurd h (List.not_mem_nil x)
  · exact List.mem_dedup.1 h

/-- Summing an indicator of a single key over duplicate-free keys. -/
theorem sum_ite_single (seats : List Nat) (hnd : seats.Nodup) (k : Nat) (hk : k ∈ seats)
    (v : Nat) : (seats.map fun s => if s = k then v else 0).sum = v := by
  induction seats with
  | nil => exact absurd hk (List.not_mem_nil k)
  | cons x rest ih =>
    rcases List.mem_cons.1 hk with heq | hk'
    · have hrest : ∀ s ∈ rest, (if s = k then v else 0) = 0 := by
        intro s hs
        rw [if_neg]
        intro hsk
        exact (List.nodup_cons.1 hnd).1 (heq ▸ hsk ▸ hs)
      rw [List.map_cons, if_pos heq.symm, List.sum_cons,
        List.sum_eq_zero (by simpa using hrest), Nat.add_zero]
    · have hx : x ≠ k := by
        intro hxk
        exact (List.nodup_cons.1 hnd).1 (hxk ▸ hk')
      rw [List.map_cons, if_neg hx, List.sum_cons, ih (List.nodup_cons.1 hnd).2 hk',
        Nat.zero_add]

/-- A filtered count times a constant, as a sum of indicators. -/
theorem filter_length_mul (l : List PlayerState) (pr : PlayerState → Bool) (c : Nat) :
    (l.filter pr).length * c = (l.map fun p => if pr p then c else 0).sum := by
  induction l with
  | nil => simp
  | cons x rest ih =>
    rw [List.filter_cons, List.map_cons, List.sum_cons]
    by_cases hx : pr x
    · rw [if_pos hx, if_pos (by simpa using hx), List.length_cons, Nat.succ_mul, ih]
      omega
    · rw [if_neg hx, if_neg (by simpa using hx), Nat.zero_add]
      exact ih

/-- Summing the winnings lookup over duplicate-free seats that cover the
winnings keys recovers the total credited amount. -/
theorem sum_lookup_eq_sumW :
    ∀ (w : List (Nat × Nat)) (seats : List Nat), seats.Nodup →
      (∀ k ∈ w.map (·.1), k ∈ seats) → (w.map (·.1)).Nodup →
      (seats.map fun s => lookupW w s).sum = sumW w := by
  intro w
  induction w with
  | nil =>
    intro seats _ _ _
    rw [sumW_nil, List.sum_eq_zero]
    intro x hx
    rcases List.mem_map.1 hx with ⟨s, _, rfl⟩
    rfl
  | cons e w' ih =>
    intro seats hnd hksub hwnd
    have hwnd' : (e.1 :: w'.map (·.1)).Nodup := by simpa using hwnd
    have hk : e.1 ∈ seats := hksub e.1 (List.mem_map_of_mem (·.1) (List.mem_cons_self e w'))
    have hknot : ∀ f ∈ w', f.1 ≠ e.1 := by
      intro f hf hfe
      exact (List.nodup_cons.1 hwnd').1 (hfe ▸ List.mem_map_of_mem (·.1) hf)
    have hlk : lookupW w' e.1 = 0 := by
      unfold lookupW
      rw [List.find?_eq_none.2 fun f hf => by simpa using hknot f hf]
      rfl
    have hpt : ∀ s ∈ seats,
        lookupW (e :: w') s = (if s = e.1 then e.2 else 0) + lookupW w' s := by
      intro s hs
      by_cases hse : s = e.1
      · rw [if_pos hse, hse, hlk, Nat.add_zero]
        unfold lookupW
        rw [List.find?_cons_of_pos _ (by simp)]
        rfl
      · rw [if_neg hse, Nat.zero_add]
        unfold lookupW
        rw [List.find?_cons_of_neg _ (by simpa using fun h => hse h.symm)]
    have hsub' : ∀ k ∈ w'.map (·.1), k ∈ seats := by
      intro k hk'
      refine hksub k ?_
      rw [List.map_cons]
      exact List.mem_cons_of_mem _ hk'
    rw [List.map_congr_left hpt, List.sum_map_add, sum_ite_single seats hnd e.1 hk e.2,
      sumW_cons, ih seats hnd hsub' (List.nodup_cons.1 hwnd').2]

/-- The tier loop keeps the winnings keys duplicate-free and within the
seat indexes of the hand's players. -/
theorem settleTiers_keys (tso : List Nat) (button : Nat)
    (players contenders : List PlayerState) (board : List Card)
    (wFn : List PlayerState → List Card → List Nat)
    (hcsub : ∀ p ∈ contenders, p ∈ players)
    (hw : ∀ elig bd, elig ≠ [] → ∀ s ∈ wFn elig bd, s ∈ elig.map (·.seatIndex)) :
    ∀ (levels : List Nat) (previous : Nat) (acc : List (Nat × Nat)),
      (acc.map (·.1)).Nodup → (∀ k ∈ acc.map (·.1), k ∈ players.map (·.seatIndex)) →
      ((settleTiers tso button players contenders board wFn levels previous acc).map
          (·.1)).Nodup ∧
        ∀ k ∈ (settleTiers tso button players contenders board wFn levels previous
            acc).map (·.1), k ∈ players.map (·.seatIndex) := by
  intro levels
  induction levels with
  | nil => intro previous acc h1 h2; exact ⟨h1, h2⟩
  | cons level rest ih =>
    intro previous acc h1 h2
    simp only [settleTiers]
    by_cases hskip :
        (players.filter fun p => level ≤ p.totalContribution).length * (level - previous) = 0 ∨
          ((contenders.filter fun p => level ≤ p.totalContribution).isEmpty : Prop)
    · rw [if_pos hskip]
      exact ih level acc h1 h2
    · rw [if_neg hskip]
      have helig : (contenders.filter fun p => level ≤ p.totalContribution) ≠ [] := by
        intro hemp
        exact hskip (.inr (by rw [hemp]; rfl))
      refine ih level _ (distributeTier_keys_nodup _ _ _ _ h1) ?_
      intro k hk
      rcases distributeTier_keys_sub _ _ _ _ k hk with h | h
      · exact h2 k h
      · have hkw := orderClockwise_sub tso (button : Int) _ k h
        have hks := hw _ board helig k hkw
        rcases List.mem_map.1 hks with ⟨p, hp, hps⟩
        exact hps ▸ List.mem_map_of_mem (·.seatIndex)
          (hcsub p (List.mem_of_mem_filter hp))

/-- The tier loop pays out exactly the per-level participant counts times
the level increments. -/
theorem settleTiers_sumW (tso : List Nat) (button : Nat)
    (players contenders : List PlayerState) (board : List Card)
    (wFn : List PlayerState → List Card → List Nat)
    (htso : tso.Nodup) (hbt : button ∈ tso)
    (hcsub : ∀ p ∈ contenders, p ∈ players)
    (hseats : ∀ p ∈ players, p.seatIndex ∈ tso)
    (hw : ∀ elig bd, elig ≠ [] → (wFn elig bd).Nodup ∧ wFn elig bd ≠ [] ∧
      ∀ s ∈ wFn elig bd, s ∈ elig.map (·.seatIndex))
    (hmaxc : ∃ pm ∈ contenders, ∀ q ∈ players, q.totalContribution ≤ pm.totalContribution) :
    ∀ (levels : List Nat) (previous : Nat) (acc : List (Nat × Nat)),
      List.Chain' (· < ·) (previous :: levels) →
      (∀ l ∈ levels, ∃ q ∈ players, q.totalContribution = l) →
      (acc.map (·.1)).Nodup →
      sumW (settleTiers tso button players contenders board wFn levels previous acc) =
        sumW acc + levelSum players levels previous := by
  intro levels
  induction levels with
  | nil => intro previous acc _ _ _; simp [settleTiers, levelSum]
  | cons level rest ih =>
    intro previous acc hchain hwit hacc
    obtain ⟨pm, hpm, hpmax⟩ := hmaxc
    obtain ⟨q, hq, hqt⟩ := hwit level (List.mem_cons_self level rest)
    have hprev : previous < level := (List.chain'_cons.1 hchain).1
    have hchain' : List.Chain' (· < ·) (level :: rest) := (List.chain'_cons.1 hchain).2
    have hqp : q ∈ players.filter fun p => level ≤ p.totalContribution :=
      List.mem_filter.2 ⟨hq, by simp [hqt]⟩
    have hpot : (players.filter fun p => level ≤ p.totalContribution).length *
        (level - previous) ≠ 0 := by
      have h1 : 0 < (players.filter fun p => level ≤ p.totalContribution).length :=
        List.length_pos.2 (List.ne_nil_of_mem hqp)
      have h2 : 0 < level - previous := by omega
      exact Nat.mul_ne_zero (by omega) (by omega)
    have hpmel : pm ∈ contenders.filter fun p => level ≤ p.totalContribution :=
      List.mem_filter.2 ⟨hpm, by
        have := hpmax q hq
        simp only [decide_eq_true_eq]
        omega⟩
    have helig : (contenders.filter fun p => level ≤ p.totalContribution) ≠ [] :=
      List.ne_nil_of_mem hpmel
    have heligne : ((contenders.filter fun p => level ≤ p.totalContribution).isEmpty) = false :=
      by simpa [List.isEmpty_iff] using helig
    simp only [settleTiers]
    rw [if_neg (by
      rw [heligne]
      simpa using hpot)]
    obtain ⟨hwnd, hwne, hwsub⟩ := hw _ board helig
    have hwtso : ∀ x ∈ wFn (contenders.filter fun p => level ≤ p.totalContribution) board,
        x ∈ tso := by
      intro x hx
      rcases List.mem_map.1 (hwsub x hx) with ⟨p, hp, hps⟩
      exact hps ▸ hseats p (hcsub p (List.mem_of_mem_filter hp))
    have hperm := orderClockwise_perm tso htso button hbt _ hwtso
    have hlen : (orderSeatIndexesClockwiseFrom tso (button : Int)
        (wFn (contenders.filter fun p => level ≤ p.totalContribution) board)).length =
        (wFn (contenders.filter fun p => level ≤ p.totalContribution) board).length := by
      rw [hperm.length_eq, List.dedup_eq_self.2 hwnd]
    have hwpos : 0 < (wFn (contenders.filter fun p => level ≤ p.totalContribution)
        board).length := List.length_pos.2 hwne
    rw [ih level _ hchain'
      (fun l hl => hwit l (List.mem_cons_of_mem level hl))
      (distributeTier_keys_nodup _ _ _ _ hacc)]
    rw [distributeTier_sumW _ _ _ _ (by rw [hlen]; exact Nat.le_of_lt (Nat.mod_lt _ hwpos))
      hacc]
    rw [hlen, levelSum]
    have hdm := Nat.div_add_mod'
      ((players.filter fun p => level ≤ p.totalContribution).length * (level - previous))
      ((wFn (contenders.filter fun p => level ≤ p.totalContribution) board).length)
    omega

/-- Layer-cake telescoping: when the levels are strictly increasing above
`previous` and cover every total contribution not below `previous`, the
per-level payouts sum to each player's contribution above `previous`. -/
theorem levelSum_eq (players : List PlayerState) :
    ∀ (levels : List Nat) (previous : Nat),
      List.Chain' (· < ·) (previous :: levels) →
      (∀ p ∈ players, p.totalContribution ≤ previous ∨ p.totalContribution ∈ levels) →
      levelSum players levels previous =
        (players.map fun p => p.totalContribution - previous).sum := by
  intro levels
  induction levels with
  | nil =>
    intro previous _ hcov
    rw [levelSum, List.sum_eq_zero]
    intro x hx
    rcases List.mem_map.1 hx with ⟨p, hp, rfl⟩
    rcases hcov p hp with h | h
    · omega
    · exact absurd h (List.not_mem_nil _)
  | cons level rest ih =>
    intro previous hchain hcov
    have hprev : previous < level := (List.chain'_cons.1 hchain).1
    have hchain' : List.Chain' (· < ·) (level :: rest) := (List.chain'_cons.1 hchain).2
    have hrest_gt : ∀ r ∈ rest, level < r := by
      have hpw : List.Pairwise (· < ·) (level :: rest) :=
        List.chain'_iff_pairwise.1 hchain'
      exact fun r hr => (List.pairwise_cons.1 hpw).1 r hr
    have hcov' : ∀ p ∈ players, p.totalContribution ≤ level ∨ p.totalContribution ∈ rest := by
      intro p hp
      rcases hcov p hp with h | h
      · exact .inl (by omega)
      · rcases List.mem_cons.1 h with h' | h'
        · exact .inl (by omega)
        · exact .inr h'
    rw [levelSum, ih level hchain' hcov',
      filter_length_mul players (fun p => level ≤ p.totalContribution) (level - previous)]
    rw [← List.sum_map_add]
    refine congrArg List.sum (List.map_congr_left fun p hp => ?_)
    by_cases hl : level ≤ p.totalContribution
    · rw [if_pos (by simpa using hl)]
      omega
    · rw [if_neg (by simpa using hl)]
      have hple : p.totalContribution ≤ previous := by
        rcases hcov p hp with h | h
        · exact h
        · rcases List.mem_cons.1 h with h' | h'
          · omega
          · exact absurd (hrest_gt _ h') (by omega)
      omega

/-- Insertion keeps the multiset of elements. -/
theorem insertSorted_perm (le : α → α → Bool) (a : α) :
    ∀ l : List α, List.Perm (insertSorted le a l) (a :: l) := by
  intro l
  induction l with
  | nil => exact List.Perm.refl _
  | cons b bs ih =>
    rw [insertSorted]
    by_cases h : le a b
    · rw [if_pos h]
    · rw [if_neg h]
      exact (ih.cons b).trans (List.Perm.swap a b bs)

/-- Insertion sort permutes its input. -/
theorem insertionSort_perm (le : α → α → Bool) :
    ∀ l : List α, List.Perm (insertionSort le l) l := by
  intro l
  induction l with
  | nil => exact List.Perm.refl _
  | cons a as ih =>
    rw [insertionSort]
    exact (insertSorted_perm le a (insertionSort le as)).trans (ih.cons a)

theorem insertSorted_nat_sorted (a : Nat) :
    ∀ l : List Nat, List.Sorted (· ≤ ·) l →
      List.Sorted (· ≤ ·) (insertSorted (fun x y => x ≤ y) a l) := by
  intro l
  induction l with
  | nil => intro _; simp [insertSorted]
  | cons b bs ih =>
    intro hs
    rw [insertSorted]
    by_cases h : a ≤ b
    · rw [if_pos (by simpa using h)]
      refine List.sorted_cons.2 ⟨?_, hs⟩
      intro c hc
      rcases List.mem_cons.1 hc with rfl | hc'
      · exact h
      · exact Nat.le_trans h ((List.sorted_cons.1 hs).1 c hc')
    · rw [if_neg (by simpa using h)]
      have hba : b ≤ a := by omega
      refine List.sorted_cons.2 ⟨?_, ih (List.sorted_cons.1 hs).2⟩
      intro c hc
      rcases List.mem_cons.1 ((insertSorted_perm (fun x y => decide (x ≤ y)) a
        bs).mem_iff.1 hc) with rfl | h'
      · exact hba
      · exact (List.sorted_cons.1 hs).1 c h'

/-- Insertion sort sorts naturals ascending. -/
theorem insertionSort_nat_sorted :
    ∀ l : List Nat, List.Sorted (· ≤ ·) (insertionSort (fun x y => x ≤ y) l) := by
  intro l
  induction l with
  | nil => simp [insertionSort]
  | cons a as ih =>
    rw [insertionSort]
    exact insertSorted_nat_sorted a _ ih

/-- Membership in the tier levels is membership in the positive-filtered
dedup'd contribution list. -/
theorem tierLevels_mem_iff (players : List PlayerState) (l : Nat) :
    l ∈ tierLevelsSpec players ↔
      l ∈ ((players.map (·.totalContribution)).filter fun n => 0 < n).dedup := by
  unfold tierLevelsSpec
  exact (insertionSort_perm _ _).mem_iff

theorem tierLevels_pos (players : List PlayerState) (l : Nat)
    (hl : l ∈ tierLevelsSpec players) : 0 < l := by
  have := List.mem_dedup.1 ((tierLevels_mem_iff players l).1 hl)
  simpa using (List.mem_filter.1 this).2

/-- Every tier level is some player's total contribution. -/
theorem tierLevels_wit (players : List PlayerState) (l : Nat)
    (hl : l ∈ tierLevelsSpec players) : ∃ q ∈ players, q.totalContribution = l := by
  have := List.mem_dedup.1 ((tierLevels_mem_iff players l).1 hl)
  rcases List.mem_map.1 (List.mem_of_mem_filter this) with ⟨q, hq, hqt⟩
  exact ⟨q, hq, hqt⟩

/-- Every positive total contribution is a tier level. -/
theorem tierLevels_cov (players : List PlayerState) (p : PlayerState) (hp : p ∈ players) :
    p.totalContribution ≤ 0 ∨ p.totalContribution ∈ tierLevelsSpec players := by
  rcases Nat.eq_zero_or_pos p.totalContribution with h | h
  · exact .inl (by omega)
  · refine .inr ((tierLevels_mem_iff players _).2 (List.mem_dedup.2 (List.mem_filter.2
      ⟨List.mem_map_of_mem (·.totalContribution) hp, by simpa using h⟩)))

/-- The tier levels are strictly increasing and strictly positive. -/
theorem tierLevels_chain (players : List PlayerState) :
    List.Chain' (· < ·) (0 :: tierLevelsSpec players) := by
  have hsorted : List.Sorted (· ≤ ·) (tierLevelsSpec players) := by
    unfold tierLevelsSpec
    exact insertionSort_nat_sorted _
  have hnodup : (tierLevelsSpec players).Nodup := by
    unfold tierLevelsSpec
    exact ((insertionSort_perm _ _).nodup_iff).2 (List.nodup_dedup _)
  have hlt : List.Sorted (· < ·) (tierLevelsSpec players) := hsorted.lt_of_le hnodup
  refine List.chain'_cons'.2 ⟨?_, hlt.chain'⟩
  intro y hy
  exact tierLevels_pos players y (List.mem_of_mem_head? hy)

/-- Summing an indicator of a single seat over players with
duplicate-free seat indexes. -/
theorem sum_ite_seat (players : List PlayerState)
    (hnd : (players.map (·.seatIndex)).Nodup) (s : Nat)
    (hs : s ∈ players.map (·.seatIndex)) (v : Nat) :
    (players.map fun p => if p.seatIndex = s then v else 0).sum = v := by
  have hmm : (players.map fun p => if p.seatIndex = s then v else 0) =
      (players.map (·.seatIndex)).map fun k => if k = s then v else 0 := by
    rw [List.map_map]
    rfl
  rw [hmm, sum_ite_single _ hnd s hs v]

/-- Projecting the stacks out of `updatedStacks` rows. -/
theorem map_stack_add (players : List PlayerState) (f : PlayerState → Nat) :
    ((players.map fun p =>
        ({ seatIndex := p.seatIndex
           stack := p.stack + f p
           isEliminated := decide (p.stack + f p = 0) } : ResolvedSeat)).map (·.stack)).sum =
      (players.map fun p => p.stack + f p).sum := by
  rw [List.map_map]
  rfl

theorem map_lookup_seats (players : List PlayerState) (w : List (Nat × Nat)) :
    (players.map fun p => lookupW w p.seatIndex) =
      (players.map (·.seatIndex)).map fun s => lookupW w s := by
  rw [List.map_map]
  rfl

/-- C1 (amended): settlement conserves chips whenever some non-folded seat's
total contribution is maximal among all seats (as resolver-validated play
guarantees): the settled stacks sum to the pre-settlement stacks plus all
contributions.  Without that proviso a pot tier can have a positive amount
and no eligible seat, and its chips are destroyed (see the counterexample). -/
theorem settleHand_conserves_chips
    (tso : List Nat) (htso : tso.Nodup)
    (winnersFn : List PlayerState → List Card → List Nat)
    (st : RuntimeHandState)
    (hbt : st.buttonSeatIndex ∈ tso)
    (hseats : ∀ p ∈ st.players, p.seatIndex ∈ tso)
    (hnd : (st.players.map (·.seatIndex)).Nodup)
    (hw : ∀ elig bd, elig ≠ [] → (winnersFn elig bd).Nodup ∧ winnersFn elig bd ≠ [] ∧
      ∀ s ∈ winnersFn elig bd, s ∈ elig.map (·.seatIndex))
    (hmax : ∃ pm ∈ st.players.filter (fun p => !p.folded), ∀ q ∈ st.players,
      q.totalContribution ≤ pm.totalContribution) :
    ((settleHand tso winnersFn st).updatedStacks.map (·.stack)).sum =
      (st.players.map fun p => p.stack + p.totalContribution).sum := by
  obtain ⟨pm, hpm, hpmax⟩ := hmax
  have hcne : st.players.filter (fun p => !p.folded) ≠ [] := List.ne_nil_of_mem hpm
  simp only [settleHand]
  by_cases h1 : (st.players.filter fun p => !p.folded).length = 1
  · rw [if_pos h1]
    dsimp only
    obtain ⟨c, hc⟩ := List.length_eq_one.1 h1
    have hchd : (st.players.filter fun p => !p.folded).headD default = c := by
      rw [hc]
      rfl
    have hcmem : c ∈ st.players :=
      List.mem_of_mem_filter (hc ▸ List.mem_cons_self c [])
    rw [map_stack_add st.players (fun p => if p.seatIndex =
      ((st.players.filter fun p => !p.folded).headD default).seatIndex then
      (st.players.map (·.totalContribution)).sum else 0)]
    rw [List.sum_map_add, hchd,
      sum_ite_seat st.players hnd c.seatIndex (List.mem_map_of_mem (·.seatIndex) hcmem),
      List.sum_map_add]
  · by_cases h0 : (st.players.filter fun p => !p.folded).length = 0
    · exact absurd (List.length_eq_zero.1 h0) hcne
    · rw [if_neg h1, if_neg h0]
      dsimp only
      have hfold : insertionSort (fun a b => a ≤ b)
          (((st.players.map (·.totalContribution)).filter fun n => 0 < n).dedup) =
          tierLevelsSpec st.players := rfl
      rw [hfold]
      have hkeys := settleTiers_keys tso st.buttonSeatIndex st.players
        (st.players.filter fun p => !p.folded) st.board winnersFn
        (fun p hp => List.mem_of_mem_filter hp)
        (fun elig bd hne => (hw elig bd hne).2.2)
        (tierLevelsSpec st.players) 0 [] (by simp) (by simp)
      have hsum := settleTiers_sumW tso st.buttonSeatIndex st.players
        (st.players.filter fun p => !p.folded) st.board winnersFn htso hbt
        (fun p hp => List.mem_of_mem_filter hp) hseats hw ⟨pm, hpm, hpmax⟩
        (tierLevelsSpec st.players) 0 [] (tierLevels_chain st.players)
        (fun l hl => tierLevels_wit st.players l hl) (by simp)
      have hlvl := levelSum_eq st.players (tierLevelsSpec st.players) 0
        (tierLevels_chain st.players) (fun p hp => tierLevels_cov st.players p hp)
      rw [map_stack_add st.players (fun p => lookupW (settleTiers tso st.buttonSeatIndex
        st.players (st.players.filter fun p => !p.folded) st.board winnersFn
        (tierLevelsSpec st.players) 0 []) p.seatIndex)]
      rw [List.sum_map_add, List.sum_map_add]
      have hlook : (st.players.map fun p => lookupW (settleTiers tso st.buttonSeatIndex
          st.players (st.players.filter fun p => !p.folded) st.board winnersFn
          (tierLevelsSpec st.players) 0 []) p.seatIndex).sum =
          sumW (settleTiers tso st.buttonSeatIndex st.players
            (st.players.filter fun p => !p.folded) st.board winnersFn
            (tierLevelsSpec st.players) 0 []) := by
        rw [map_lookup_seats]
        exact sum_lookup_eq_sumW _ _ hnd hkeys.2 hkeys.1
      rw [hlook, hsum, hlvl, sumW_nil, Nat.zero_add]
      have hts : (st.players.map fun p => p.totalContribution - 0).sum =
          (st.players.map fun p => p.totalContribution).sum := by
        refine congrArg List.sum (List.map_congr_left fun p _ => ?_)
        omega
      rw [hts]

/-- The take-one winner function is a well-formed winner choice. -/
theorem wFnTake1_spec (elig : List PlayerState) (bd : List Card) (hne : elig ≠ []) :
    (wFnTake1 elig bd).Nodup ∧ wFnTake1 elig bd ≠ [] ∧
      ∀ s ∈ wFnTake1 elig bd, s ∈ elig.map (·.seatIndex) := by
  match elig, hne with
  | p :: rest, _ =>
    refine ⟨?_, ?_, ?_⟩ <;> simp [wFnTake1]

/-- C1 (counterexample): an engine-level hand in which the largest
contributor folds leaves a positive pot tier with no eligible seat;
`settleHand` silently skips it and four chips vanish (206 settled versus
210 dealt in). -/
theorem settleHand_chip_leak_counterexample :
    (resolvedC1.map fun rh => (rh.updatedStacks.map (·.stack)).sum) = some 206 ∧
      (seatsC1.map (·.stack)).sum = 210 := by
  exact ⟨by decide, by decide⟩

theorem settleHand_conserves_chips_witness :
    ((settleHand [0, 1] wFnTake1 stC1w).updatedStacks.map (·.stack)).sum =
      (stC1w.players.map fun p => p.stack + p.totalContribution).sum :=
  settleHand_conserves_chips [0, 1] (by decide) wFnTake1 stC1w (by decide) (by decide)
    (by decide) (fun elig bd hne => wFnTake1_spec elig bd hne) (by decide)

/-- The bounded active-seat walk is a `find?` over the physical walk. -/
theorem nextActiveSeatAux_eq_find (order active : List Nat) :
    ∀ (fuel : Nat) (cursor : Int),
      nextActiveSeatAux order active fuel cursor =
        (walkList order fuel cursor).find? fun x => active.contains x := by
  intro fuel
  induction fuel with
  | zero => intro cursor; rfl
  | succ n ih =>
    intro cursor
    rw [nextActiveSeatAux, walkList]
    cases hnp : nextPhysicalSeatIndex order cursor with
    | none => rfl
    | some nxt =>
      dsimp only
      rw [List.find?]
      by_cases hc : active.contains nxt
      · rw [hc]
        rw [if_pos rfl]
      · rw [show active.contains nxt = false from Bool.eq_false_iff.2 hc]
        rw [if_neg (by simp)]
        exact ih (nxt : Int)

/-- A successful active-seat walk lands on an active seat. -/
theorem nextActiveSeatAux_mem (order active : List Nat) :
    ∀ (fuel : Nat) (cursor : Int) (x : Nat),
      nextActiveSeatAux order active fuel cursor = some x → x ∈ active := by
  intro fuel
  induction fuel with
  | zero => intro cursor x hx; exact absurd hx (by simp [nextActiveSeatAux])
  | succ n ih =>
    intro cursor x hx
    rw [nextActiveSeatAux] at hx
    cases hnp : nextPhysicalSeatIndex order cursor with
    | none => rw [hnp] at hx; exact absurd hx (by simp)
    | some nxt =>
      rw [hnp] at hx
      dsimp only at hx
      by_cases hc : active.contains nxt
      · rw [if_pos hc] at hx
        cases hx
        exact List.elem_iff.1 hc
      · rw [if_neg hc] at hx
        exact ih (nxt : Int) x hx

theorem nextActiveSeatIndex_mem (order active : List Nat) (cursor : Int) (x : Nat)
    (hx : nextActiveSeatIndex order active cursor = some x) : x ∈ active := by
  unfold nextActiveSeatIndex at hx
  by_cases he : active.isEmpty
  · rw [if_pos he] at hx
    exact absurd hx (by simp)
  · rw [if_neg he] at hx
    exact nextActiveSeatAux_mem order active order.length cursor x hx

/-- A `find?` hit at an index whose predecessors all fail. -/
theorem find_eq_getElem (p : α → Bool) :
    ∀ (l : List α) (i : Nat) (hi : i < l.length),
      (∀ j (hj : j < i), p (l.get ⟨j, by omega⟩) = false) → p (l.get ⟨i, hi⟩) = true →
      l.find? p = some (l.get ⟨i, hi⟩) := by
  intro l
  induction l with
  | nil => intro i hi; exact absurd hi (by simp)
  | cons x xs ih =>
    intro i hi hlow hhit
    cases i with
    | zero =>
      have hx : p x = true := hhit
      rw [show (x :: xs).get ⟨0, hi⟩ = x from rfl]
      exact List.find?_cons_of_pos xs hx
    | succ m =>
      have hx : p x = false := hlow 0 (Nat.succ_pos m)
      rw [List.find?_cons_of_neg _ (by simp [hx])]
      exact ih m (by simpa using hi) (fun j hj => hlow (j + 1) (by omega)) hhit

theorem mod_succ_window (n k j : Nat) (hk : k < n) (hj : j < n)
    (h : (k + 1 + j) % n = k) : j = n - 1 := by
  rcases Nat.lt_or_ge (k + 1 + j) n with h2 | h2
  · rw [Nat.mod_eq_of_lt h2] at h
    omega
  · rw [Nat.mod_eq_sub_mod h2, Nat.mod_eq_of_lt (by omega)] at h
    omega

theorem mod_add_inj (n a i j : Nat) (hi : i < n) (hj : j < n)
    (h : (a + i) % n = (a + j) % n) : i = j := by
  have hmeq : Nat.ModEq n i j := Nat.ModEq.add_left_cancel' a h
  have h2 : i % n = j % n := hmeq
  rw [Nat.mod_eq_of_lt hi, Nat.mod_eq_of_lt hj] at h2
  exact h2

/-- With exactly two active seats, the next active seat after one of them
is the other. -/
theorem nextActive_two (order active : List Nat) (hnd : order.Nodup)
    (a b : Nat) (ha : a ∈ order) (hb : b ∈ order) (hab : a ≠ b)
    (haa : a ∈ active) (hba : b ∈ active)
    (hsub : ∀ x ∈ active, x = a ∨ x = b) :
    nextActiveSeatIndex order active (a : Int) = some b := by
  obtain ⟨k, hk, hak⟩ := List.getElem_of_mem ha
  obtain ⟨kb, hkb, hbk⟩ := List.getElem_of_mem hb
  have hn : 0 < order.length := by omega
  have hkkb : k ≠ kb := by
    intro he
    subst he
    exact hab (by rw [← hak, ← hbk])
  have hne : active ≠ [] := List.ne_nil_of_mem haa
  unfold nextActiveSeatIndex
  rw [if_neg (by simpa [List.isEmpty_iff] using hne)]
  rw [show (a : Int) = ((order.get ⟨k, hk⟩ : Nat) : Int) by
    rw [show order.get ⟨k, hk⟩ = order[k] from rfl, hak]]
  rw [nextActiveSeatAux_eq_find, walkList_eq order hnd order.length k hk]
  obtain ⟨ib, hibn, hib⟩ := mod_shift_exists order.length (k + 1) kb hn hkb
  have hak2 : order.get ⟨k, hk⟩ = a := hak
  have hbk2 : order.get ⟨kb, hkb⟩ = b := hbk
  have hlen : ((List.range order.length).map
      (fun i => order.getD ((k + 1 + i) % order.length) 0)).length = order.length := by
    simp
  have hgetl : ∀ (j : Nat) (hj : j < order.length),
      ((List.range order.length).map
        (fun i => order.getD ((k + 1 + i) % order.length) 0)).get ⟨j, by omega⟩ =
        order.get ⟨(k + 1 + j) % order.length, Nat.mod_lt _ hn⟩ := by
    intro j hj
    rw [List.get_eq_getElem, List.get_eq_getElem]
    simp [List.getD_eq_getElem?_getD, List.getElem?_eq_getElem (Nat.mod_lt _ hn)]
  have hgib : ((List.range order.length).map
      (fun i => order.getD ((k + 1 + i) % order.length) 0)).get ⟨ib, by omega⟩ = b := by
    rw [hgetl ib hibn]
    have hibkb : (k + 1 + ib) % order.length = kb := hib
    simp only [hibkb]
    exact hbk2
  rw [find_eq_getElem _ _ ib (by omega) ?lo ?hi]
  case hi =>
    rw [hgib]
    exact List.elem_iff.2 hba
  case lo =>
    intro j hj
    have hjn : j < order.length := by omega
    rw [hgetl j hjn]
    by_contra hcon
    have ht : active.contains
        (order.get ⟨(k + 1 + j) % order.length, Nat.mod_lt _ hn⟩) = true := by
      simpa using hcon
    have hcon2 : order.get ⟨(k + 1 + j) % order.length, Nat.mod_lt _ hn⟩ ∈ active :=
      List.elem_iff.1 ht
    rcases hsub _ hcon2 with hxa | hxb
    · have hgoal : order.get ⟨(k + 1 + j) % order.length, Nat.mod_lt _ hn⟩ =
          order.get ⟨k, hk⟩ := by
        rw [hxa, ← hak2]
      have heq : (k + 1 + j) % order.length = k := by
        simpa using (List.Nodup.get_inj_iff hnd).1 hgoal
      have := mod_succ_window order.length k j hk hjn heq
      omega
    · have hgoal : order.get ⟨(k + 1 + j) % order.length, Nat.mod_lt _ hn⟩ =
          order.get ⟨kb, hkb⟩ := by
        rw [hxb, ← hbk2]
      have heq : (k + 1 + j) % order.length = kb := by
        simpa using (List.Nodup.get_inj_iff hnd).1 hgoal
      rw [← hib] at heq
      have := mod_add_inj order.length (k + 1) j ib hjn hibn heq
      omega
  rw [hgib]

theorem buildActionOrderAux_shape (order active : List Nat) :
    ∀ (fuel : Nat) (cursor : Int) (acc l : List Nat),
      buildActionOrderAux order active fuel cursor acc = some l →
      ∃ t, l = acc.reverse ++ t := by
  intro fuel
  induction fuel with
  | zero =>
    intro cursor acc l h
    rw [buildActionOrderAux] at h
    cases h
    exact ⟨[], (List.append_nil _).symm⟩
  | succ n ih =>
    intro cursor acc l h
    rw [buildActionOrderAux] at h
    cases hna : nextActiveSeatIndex order active cursor with
    | none => rw [hna] at h; exact absurd h (by simp)
    | some nxt =>
      rw [hna] at h
      dsimp only at h
      obtain ⟨t, ht⟩ := ih (nxt : Int) (nxt :: acc) l h
      refine ⟨nxt :: t, ?_⟩
      rw [ht, List.reverse_cons, List.append_assoc]
      rfl

/-- The first seat of a built action order is the first active seat after
the start cursor. -/
theorem buildActionOrder_head (order active : List Nat) (startAfter : Int) (l : List Nat)
    (hne : active ≠ []) (h : buildActionOrder order active startAfter = some l) :
    ∃ x, nextActiveSeatIndex order active startAfter = some x ∧ l.head? = some x := by
  unfold buildActionOrder at h
  cases hL : active.length with
  | zero => exact absurd (List.length_eq_zero.1 hL) hne
  | succ m =>
    rw [hL, buildActionOrderAux] at h
    cases hna : nextActiveSeatIndex order active startAfter with
    | none => rw [hna] at h; exact absurd h (by simp)
    | some nxt =>
      rw [hna] at h
      dsimp only at h
      obtain ⟨t, ht⟩ := buildActionOrderAux_shape order active m (nxt : Int) [nxt] l h
      exact ⟨nxt, rfl, by rw [ht]; rfl⟩

/-- The engine's table seat order is duplicate-free. -/
theorem ensureTableSeatOrder_nodup (tso0 : List Nat) (activeSeats : List SeatSnapshot) :
    (ensureTableSeatOrder tso0 activeSeats).Nodup := by
  unfold ensureTableSeatOrder
  exact ((insertionSort_perm _ _).nodup_iff).2 (List.nodup_dedup _)

/-- Every active seat sits in the engine's table seat order. -/
theorem ensureTableSeatOrder_mem (tso0 : List Nat) (activeSeats : List SeatSnapshot)
    (x : Nat) (hx : x ∈ activeSeats.map (·.seatIndex)) :
    x ∈ ensureTableSeatOrder tso0 activeSeats := by
  unfold ensureTableSeatOrder
  exact (insertionSort_perm _ _).mem_iff.2 (List.mem_dedup.2 (List.mem_append.2 (.inr hx)))

theorem handActiveSet_eq (activeSeats : List SeatSnapshot)
    (hnd : (activeSeats.map (·.seatIndex)).Nodup) :
    handActiveSet activeSeats =
      (insertionSort (fun a b => a.seatIndex ≤ b.seatIndex) activeSeats).map (·.seatIndex) := by
  unfold handActiveSet
  have hperm := (insertionSort_perm (fun a b => a.seatIndex ≤ b.seatIndex)
    activeSeats).map (·.seatIndex)
  exact List.dedup_eq_self.2 (hperm.nodup_iff.2 hnd)

theorem handActiveSet_nodup (activeSeats : List SeatSnapshot)
    (hnd : (activeSeats.map (·.seatIndex)).Nodup) : (handActiveSet activeSeats).Nodup := by
  rw [handActiveSet_eq activeSeats hnd]
  exact ((insertionSort_perm (fun a b => a.seatIndex ≤ b.seatIndex)
    activeSeats).map (·.seatIndex)).nodup_iff.2 hnd

theorem handActiveSet_length (activeSeats : List SeatSnapshot)
    (hnd : (activeSeats.map (·.seatIndex)).Nodup) :
    (handActiveSet activeSeats).length = activeSeats.length := by
  rw [handActiveSet_eq activeSeats hnd]
  rw [((insertionSort_perm (fun a b => a.seatIndex ≤ b.seatIndex)
    activeSeats).map (·.seatIndex)).length_eq]
  simp

theorem handActiveSet_mem (activeSeats : List SeatSnapshot)
    (hnd : (activeSeats.map (·.seatIndex)).Nodup) (x : Nat) :
    x ∈ handActiveSet activeSeats ↔ x ∈ activeSeats.map (·.seatIndex) := by
  rw [handActiveSet_eq activeSeats hnd]
  exact ((insertionSort_perm (fun a b => a.seatIndex ≤ b.seatIndex)
    activeSeats).map (·.seatIndex)).mem_iff

theorem two_elem_other (l : List Nat) (hnd : l.Nodup) (hlen : l.length = 2) (a : Nat)
    (ha : a ∈ l) : ∃ o, o ∈ l ∧ o ≠ a ∧ ∀ x ∈ l, x = a ∨ x = o := by
  match l, hlen with
  | [x, y], _ =>
    have hxy : x ≠ y := by
      intro he
      rw [he] at hnd
      exact (List.nodup_cons.1 hnd).1 (List.mem_cons_self y [])
    rcases List.mem_cons.1 ha with rfl | ha'
    · refine ⟨y, by simp, fun he => hxy he.symm, ?_⟩
      intro z hz
      rcases List.mem_cons.1 hz with rfl | hz'
      · exact .inl rfl
      · exact .inr (by simpa using hz')
    · have hay : a = y := by simpa using ha'
      subst hay
      refine ⟨x, by simp, fun he => hxy he, ?_⟩
      intro z hz
      rcases List.mem_cons.1 hz with rfl | hz'
      · exact .inr rfl
      · exact .inl (by simpa using hz')

/-- C7: heads-up, the button advances to the next *active* seat, posts the
small blind itself, the big blind is the other active seat, and the
button acts first preflop; with three or more active seats the button
advances to the next *physical* seat (dead button), the blinds are the
next two active seats after it, the first preflop actor is the active
seat after the big blind, and the first flop actor is the active seat
after the button. -/
theorem initializeHand_seating
    (cfg : EngineCfg) (tso0 : List Nat) (button0 : Int)
    (activeSeats : List SeatSnapshot) (handNumber : Nat) (deck0 : List Card)
    (r : InitResult)
    (hnd : (activeSeats.map (·.seatIndex)).Nodup)
    (h : initializeHandWithDeck cfg tso0 button0 activeSeats handNumber deck0 = some r) :
    (activeSeats.length = 2 →
      nextActiveSeatIndex (ensureTableSeatOrder tso0 activeSeats)
          (handActiveSet activeSeats) button0 = some r.buttonSeatIndex ∧
      r.buttonSeatIndex ∈ handActiveSet activeSeats ∧
      ∃ o, nextActiveSeatIndex (ensureTableSeatOrder tso0 activeSeats)
          (handActiveSet activeSeats) (r.buttonSeatIndex : Int) = some o ∧
        o ∈ handActiveSet activeSeats ∧ o ≠ r.buttonSeatIndex ∧
        (∀ x ∈ handActiveSet activeSeats, x = r.buttonSeatIndex ∨ x = o) ∧
        (∃ dealt, dealHoleCards (insertionSort (fun a b => a.seatIndex ≤ b.seatIndex)
            activeSeats) deck0 = some dealt ∧
          r.state.players = postBlind (postBlind dealt.1 r.buttonSeatIndex
            (getBlindLevel cfg handNumber).smallBlind) o
            (getBlindLevel cfg handNumber).bigBlind) ∧
        r.state.preflopOrder.head? = some r.buttonSeatIndex) ∧
    (3 ≤ activeSeats.length →
      nextPhysicalSeatIndex (ensureTableSeatOrder tso0 activeSeats) button0 =
        some r.buttonSeatIndex ∧
      ∃ sb bb, nextActiveSeatIndex (ensureTableSeatOrder tso0 activeSeats)
          (handActiveSet activeSeats) (r.buttonSeatIndex : Int) = some sb ∧
        nextActiveSeatIndex (ensureTableSeatOrder tso0 activeSeats)
          (handActiveSet activeSeats) (sb : Int) = some bb ∧
        (∃ dealt, dealHoleCards (insertionSort (fun a b => a.seatIndex ≤ b.seatIndex)
            activeSeats) deck0 = some dealt ∧
          r.state.players = postBlind (postBlind dealt.1 sb
            (getBlindLevel cfg handNumber).smallBlind) bb
            (getBlindLevel cfg handNumber).bigBlind) ∧
        (∃ u, nextActiveSeatIndex (ensureTableSeatOrder tso0 activeSeats)
            (handActiveSet activeSeats) (bb : Int) = some u ∧
          r.state.preflopOrder.head? = some u) ∧
        r.state.flopOrder.head? = some sb) := by
  have hsl : (insertionSort (fun a b => a.seatIndex ≤ b.seatIndex) activeSeats).length =
      activeSeats.length :=
    (insertionSort_perm (fun a b => a.seatIndex ≤ b.seatIndex) activeSeats).length_eq
  have htsoN : (ensureTableSeatOrder tso0 activeSeats).Nodup :=
    ensureTableSeatOrder_nodup tso0 activeSeats
  simp only [initializeHandWithDeck, bind] at h
  constructor
  · intro hlen
    have hc : (insertionSort (fun a b => a.seatIndex ≤ b.seatIndex) activeSeats).length = 2 :=
      by omega
    rw [if_pos hc] at h
    rcases Option.bind_eq_some.1 h with ⟨button, hbtn, h⟩
    rw [if_pos hc] at h
    simp only [Option.some_bind] at h
    rcases Option.bind_eq_some.1 h with ⟨bb, hbb, h⟩
    rcases Option.bind_eq_some.1 h with ⟨pre, hpre, h⟩
    rcases Option.bind_eq_some.1 h with ⟨flop, hflop, h⟩
    rcases Option.bind_eq_some.1 h with ⟨dealt, hdealt, h⟩
    injection h with h
    subst h
    have hbtnA : button ∈ handActiveSet activeSeats :=
      nextActiveSeatIndex_mem _ _ _ _ hbtn
    have hasetlen : (handActiveSet activeSeats).length = 2 := by
      rw [handActiveSet_length activeSeats hnd, hlen]
    obtain ⟨o, hoA, hob, hoall⟩ := two_elem_other (handActiveSet activeSeats)
      (handActiveSet_nodup activeSeats hnd) hasetlen button hbtnA
    have hbtn_tso : button ∈ ensureTableSeatOrder tso0 activeSeats :=
      ensureTableSeatOrder_mem tso0 activeSeats button
        ((handActiveSet_mem activeSeats hnd button).1 hbtnA)
    have ho_tso : o ∈ ensureTableSeatOrder tso0 activeSeats :=
      ensureTableSeatOrder_mem tso0 activeSeats o
        ((handActiveSet_mem activeSeats hnd o).1 hoA)
    have hbb2 : nextActiveSeatIndex (ensureTableSeatOrder tso0 activeSeats)
        (handActiveSet activeSeats) (button : Int) = some o :=
      nextActive_two _ _ htsoN button o hbtn_tso ho_tso (fun he => hob he.symm)
        hbtnA hoA hoall
    have hbbo : bb = o := Option.some.inj (hbb.symm.trans hbb2)
    subst hbbo
    have hasetne : handActiveSet activeSeats ≠ [] := by
      intro he
      rw [he] at hasetlen
      simp at hasetlen
    refine ⟨hbtn, hbtnA, bb, hbb2, hoA, hob, hoall, ⟨dealt, hdealt, rfl⟩, ?_⟩
    obtain ⟨x, hxeq, hxhead⟩ := buildActionOrder_head _ _ _ _ hasetne hpre
    have hx2 : nextActiveSeatIndex (ensureTableSeatOrder tso0 activeSeats)
        (handActiveSet activeSeats) (bb : Int) = some button :=
      nextActive_two _ _ htsoN bb button ho_tso hbtn_tso hob hoA hbtnA
        (fun y hy => (hoall y hy).symm)
    have hxb : x = button := Option.some.inj (hxeq.symm.trans hx2)
    exact hxb ▸ hxhead
  · intro hlen3
    have hc : ¬((insertionSort (fun a b => a.seatIndex ≤ b.seatIndex) activeSeats).length =
        2) := by omega
    rw [if_neg hc] at h
    rcases Option.bind_eq_some.1 h with ⟨button, hbtn, h⟩
    rw [if_neg hc] at h
    rcases Option.bind_eq_some.1 h with ⟨sb, hsb, h⟩
    rcases Option.bind_eq_some.1 h with ⟨bb, hbb, h⟩
    rcases Option.bind_eq_some.1 h with ⟨pre, hpre, h⟩
    rcases Option.bind_eq_some.1 h with ⟨flop, hflop, h⟩
    rcases Option.bind_eq_some.1 h with ⟨dealt, hdealt, h⟩
    injection h with h
    subst h
    have hasetne : handActiveSet activeSeats ≠ [] := by
      intro he
      have := handActiveSet_length activeSeats hnd
      rw [he] at this
      simp at this
      omega
    refine ⟨hbtn, sb, bb, hsb, hbb, ⟨dealt, hdealt, rfl⟩, ?_, ?_⟩
    · obtain ⟨u, hueq, huhead⟩ := buildActionOrder_head _ _ _ _ hasetne hpre
      exact ⟨u, hueq, huhead⟩
    · obtain ⟨x, hxeq, hxhead⟩ := buildActionOrder_head _ _ _ _ hasetne hflop
      have hxb : x = sb := Option.some.inj (hxeq.symm.trans hsb)
      exact hxb ▸ hxhead

theorem initializeHand_seating_witness :
    nextActiveSeatIndex (ensureTableSeatOrder [] seatsC7) (handActiveSet seatsC7) (-1) =
        some rC7.buttonSeatIndex ∧
      rC7.buttonSeatIndex ∈ handActiveSet seatsC7 ∧
      ∃ o, nextActiveSeatIndex (ensureTableSeatOrder [] seatsC7) (handActiveSet seatsC7)
          (rC7.buttonSeatIndex : Int) = some o ∧
        o ∈ handActiveSet seatsC7 ∧ o ≠ rC7.buttonSeatIndex ∧
        (∀ x ∈ handActiveSet seatsC7, x = rC7.buttonSeatIndex ∨ x = o) ∧
        (∃ dealt, dealHoleCards (insertionSort (fun a b => a.seatIndex ≤ b.seatIndex)
            seatsC7) createDeck = some dealt ∧
          rC7.state.players = postBlind (postBlind dealt.1 rC7.buttonSeatIndex
            (getBlindLevel demoCfg 1).smallBlind) o (getBlindLevel demoCfg 1).bigBlind) ∧
        rC7.state.preflopOrder.head? = some rC7.buttonSeatIndex :=
  (initializeHand_seating demoCfg [] (-1) seatsC7 1 createDeck rC7 (by decide) (by rfl)).1 rfl

end LlmHoldem
